import Mathlib

/-!
Verification of the settings-editor core of `pages/2_Settings_Editor.py`.

The file embeds, as executable Lean definitions, the two mirror-image
recursions of the page — `render_setting` (which walks a settings tree and
registers one widget state per leaf under a `'_'.join(key_path)` identifier)
and `build_updated_settings` (which walks the original tree again, looks each
leaf's edited raw value up by the same identifier and coerces it back to the
leaf's original type) — together with the Python string/number primitives they
rely on (`str.strip`, `str.splitlines`, `str.isdigit`, `int(...)`,
`float(...)`, `bool(...)`, `'_'.join`).  The PyYAML calls used for the
`session_types` field are an external library and are modelled as an explicit
`YamlLib` parameter (a dump function and a load function returning `none`
when parsing raises).

Theorems below settle the testable properties stated in the design document:
key-path injectivity, round-trip stability, type preservation, structural
isomorphism of the rebuild, renderer/rebuild traversal symmetry, and the
graceful handling of coercion failures.
-/

namespace SettingsEditor

/-- Raw widget values living in Streamlit's `st.session_state`: a checkbox
stores a bool, a number input stores an int or a float, and text widgets
store strings.  Floats are modelled as rationals. -/
inductive RawVal where
  | rBool (b : Bool)
  | rInt (n : Int)
  | rFloat (q : Rat)
  | rStr (s : String)
  deriving DecidableEq

mutual
/-- A JSON-like settings value: the recursive data the page edits.  Mappings
keep their entries in insertion order, as Python dicts do. -/
inductive Value where
  | vBool (b : Bool)
  | vInt (n : Int)
  | vFloat (q : Rat)
  | vStr (s : String)
  | vListV (items : ValList)
  | vNull
  | vDict (entries : Entries)
  deriving DecidableEq

/-- A list of settings values (the payload of `Value.vListV`). -/
inductive ValList where
  | nil
  | cons (v : Value) (rest : ValList)
  deriving DecidableEq

/-- The ordered entries of a mapping node: association pairs of key and
value, in insertion order. -/
inductive Entries where
  | nil
  | cons (key : String) (v : Value) (rest : Entries)
  deriving DecidableEq
end

open Value

/-- Build a `ValList` from a Lean list (for stating concrete examples). -/
def ValList.ofList : List Value → ValList
  | [] => ValList.nil
  | v :: rest => ValList.cons v (ValList.ofList rest)

/-- Flatten a `ValList` into a Lean list. -/
def ValList.toList : ValList → List Value
  | ValList.nil => []
  | ValList.cons v rest => v :: ValList.toList rest

/-- Does every element of the list satisfy the (non-recursive) test? -/
def ValList.allB (p : Value → Bool) : ValList → Bool
  | ValList.nil => true
  | ValList.cons v rest => p v && ValList.allB p rest

/-- Map a (non-recursive) function over a `ValList`. -/
def ValList.mapToList {α : Type} (f : Value → α) : ValList → List α
  | ValList.nil => []
  | ValList.cons v rest => f v :: ValList.mapToList f rest

/-- Build `Entries` from a Lean association list (for concrete examples). -/
def Entries.ofList : List (String × Value) → Entries
  | [] => Entries.nil
  | (k, v) :: rest => Entries.cons k v (Entries.ofList rest)

/-- Flatten `Entries` into a Lean association list. -/
def Entries.toList : Entries → List (String × Value)
  | Entries.nil => []
  | Entries.cons k v rest => (k, v) :: Entries.toList rest

/-- The keys of a mapping node, in insertion order. -/
def Entries.keysOf : Entries → List String
  | Entries.nil => []
  | Entries.cons k _ rest => k :: Entries.keysOf rest

/-- Python dict lookup: the value stored under a key (entries keys are unique
in a real dict; on a raw association list this finds the first match). -/
def Entries.lookupE (k : String) : Entries → Option Value
  | Entries.nil => none
  | Entries.cons k2 v rest => if k = k2 then some v else Entries.lookupE k rest

/-- Is this value a mapping node? -/
def Value.isDictV : Value → Bool
  | vDict _ => true
  | _ => false

/-- The runtime type of a value, as Python's `isinstance` chain distinguishes
them: bool, int, float, str, list, NoneType, dict. -/
inductive VType where
  | tBool | tInt | tFloat | tStr | tList | tNull | tDict
  deriving DecidableEq

/-- `typeOf` assigns every value its runtime type tag. -/
def typeOf : Value → VType
  | vBool _ => VType.tBool
  | vInt _ => VType.tInt
  | vFloat _ => VType.tFloat
  | vStr _ => VType.tStr
  | vListV _ => VType.tList
  | vNull => VType.tNull
  | vDict _ => VType.tDict

/-- One non-fatal coercion diagnostic: the key path of the field that could
not be coerced (the page surfaces these via `st.error` / `logging.warning`)
and the offending text. -/
structure Diag where
  path : List String
  detail : String
  deriving DecidableEq

/-- The PyYAML collaborator used for the `session_types` field, modelled
abstractly: `dump` serialises a list of values to text and `load` parses text
back, returning `none` when `yaml.safe_load` would raise. -/
structure YamlLib where
  dump : ValList → String
  load : String → Option Value

/- ---------------------------------------------------------------------
Python string and number primitives used by the page.
--------------------------------------------------------------------- -/

/-- The whitespace characters `str.strip()` removes (ASCII fragment of
Python's definition). -/
def pyIsSpace (c : Char) : Bool :=
  c = ' ' || c = '\t' || c = '\n' || c = '\r' || c = '\x0b' || c = '\x0c'

/-- `str.strip()` on a character list: drop whitespace from both ends. -/
def pyStripChars (cs : List Char) : List Char :=
  ((cs.dropWhile pyIsSpace).reverse.dropWhile pyIsSpace).reverse

/-- Python `str.strip()` with no arguments. -/
def pyStrip (s : String) : String :=
  String.mk (pyStripChars s.data)

/-- Python `str.splitlines()` on a character list: split at `\n`, `\r\n` or
`\r`, with no trailing empty segment for a trailing line break. -/
def pySplitlinesChars : List Char → List (List Char)
  | [] => []
  | '\r' :: '\n' :: cs => [] :: pySplitlinesChars cs
  | '\n' :: cs => [] :: pySplitlinesChars cs
  | '\r' :: cs => [] :: pySplitlinesChars cs
  | c :: cs =>
    match pySplitlinesChars cs with
    | [] => [[c]]
    | l :: ls => (c :: l) :: ls

/-- Python `str.splitlines()`. -/
def pySplitlines (s : String) : List String :=
  (pySplitlinesChars s.data).map String.mk

/-- Python `'\n'.join(...)` (as used with the textarea list fields). -/
def pyJoinNL : List String → String
  | [] => ""
  | [s] => s
  | s :: rest => s ++ "\n" ++ pyJoinNL rest

/-- Python `'_'.join(map(str, key_path))`: the key-path identifier scheme of
both `render_setting` (line 77) and `build_updated_settings` (line 156). -/
def joinPath : List String → String
  | [] => ""
  | [k] => k
  | k :: rest => k ++ "_" ++ joinPath rest

/-- Python `str.isdigit()` (ASCII fragment): nonempty and all digits. -/
def pyIsDigit (s : String) : Bool :=
  !s.data.isEmpty && s.data.all Char.isDigit

/-- Numeric value of a digit character. -/
def digitVal (c : Char) : Nat := c.toNat - 48

/-- Numeric value of a digit string (most significant digit first). -/
def digitsVal (cs : List Char) : Nat :=
  cs.foldl (fun a c => 10 * a + digitVal c) 0

/-- The character for a digit below ten. -/
def digitChar (n : Nat) : Char := Char.ofNat (48 + n)

/-- Decimal digits of a natural number, fuelled to keep the recursion
structural (the fuel `n + 1` always suffices). -/
def natDigitsAux : Nat → Nat → List Char
  | 0, _ => []
  | fuel + 1, n =>
    if n < 10 then [digitChar n]
    else natDigitsAux fuel (n / 10) ++ [digitChar (n % 10)]

/-- Decimal digits of a natural number, most significant first. -/
def natDigits (n : Nat) : List Char := natDigitsAux (n + 1) n

/-- Python `str(...)` of an int. -/
def pyIntRepr (n : Int) : String :=
  if n < 0 then String.mk ('-' :: natDigits n.natAbs)
  else String.mk (natDigits n.natAbs)

/-- Text rendering of a float.  Python renders floats in decimal; the exact
digit string is irrelevant to every property proved below, so the rational is
rendered as `num/den` here. -/
def ratRepr (q : Rat) : String :=
  pyIntRepr q.num ++ "/" ++ pyIntRepr (q.den : Int)

/-- A valid decimal digit run for Python's `int(...)`: nonempty, digits with
optional single underscores strictly between digits. -/
def pyDigitsOk : List Char → Bool
  | [] => false
  | [c] => c.isDigit
  | c :: '_' :: cs => c.isDigit && pyDigitsOk cs
  | c :: c2 :: cs => c.isDigit && pyDigitsOk (c2 :: cs)

/-- Value of a digit run that may contain underscores. -/
def digitsUndVal (cs : List Char) : Nat :=
  digitsVal (cs.filter (fun c => c != '_'))

/-- Python `int(...)` applied to a string: strip whitespace, optional sign,
then a digit run; anything else raises `ValueError` (`none` here). -/
def pyIntParse (s : String) : Option Int :=
  match pyStripChars s.data with
  | '+' :: rest => if pyDigitsOk rest then some (digitsUndVal rest : Int) else none
  | '-' :: rest => if pyDigitsOk rest then some (-(digitsUndVal rest : Int)) else none
  | rest => if pyDigitsOk rest then some (digitsUndVal rest : Int) else none

/-- Mantissa of a float literal: `digits`, `digits.`, `.digits` or
`digits.digits`, valued as a rational. -/
def pyFloatMantissa (cs : List Char) : Option Rat :=
  match cs.span (fun c => c != '.') with
  | (intPart, []) =>
    if !intPart.isEmpty && intPart.all Char.isDigit
    then some ((digitsVal intPart : Int) : Rat) else none
  | (intPart, _ :: fracPart) =>
    if intPart.all Char.isDigit && fracPart.all Char.isDigit
        && (!intPart.isEmpty || !fracPart.isEmpty)
    then some (((digitsVal (intPart ++ fracPart) : Int) : Rat)
               / ((10 : Rat) ^ fracPart.length))
    else none

/-- Exponent part of a float literal (after `e`/`E`): optional sign and a
nonempty digit run. -/
def pyFloatExp (cs : List Char) : Option Int :=
  match cs with
  | '+' :: rest =>
    if !rest.isEmpty && rest.all Char.isDigit then some (digitsVal rest : Int) else none
  | '-' :: rest =>
    if !rest.isEmpty && rest.all Char.isDigit then some (-(digitsVal rest : Int)) else none
  | rest =>
    if !rest.isEmpty && rest.all Char.isDigit then some (digitsVal rest : Int) else none

/-- Scale a rational by a (possibly negative) power of ten. -/
def scalePow10 (q : Rat) (e : Int) : Rat :=
  if 0 ≤ e then q * (10 : Rat) ^ e.toNat else q / (10 : Rat) ^ (-e).toNat

/-- Python `float(...)` applied to a string: strip whitespace, optional sign,
decimal mantissa and optional exponent; failure raises `ValueError` (`none`).
Non-finite literals (`inf`, `nan`) have no rational counterpart and are not
modelled; no claim below exercises them. -/
def pyFloatParse (s : String) : Option Rat :=
  let signed : List Char → Option Rat := fun cs =>
    match cs.span (fun c => c != 'e' && c != 'E') with
    | (mant, []) => pyFloatMantissa mant
    | (mant, _ :: expPart) =>
      match pyFloatMantissa mant, pyFloatExp expPart with
      | some m, some e => some (scalePow10 m e)
      | _, _ => none
  match pyStripChars s.data with
  | '+' :: rest => signed rest
  | '-' :: rest => (signed rest).map (fun q => -q)
  | rest => signed rest

/-- Python truthiness `bool(x)` for raw widget values: never raises. -/
def pyTruthy : RawVal → Bool
  | RawVal.rBool b => b
  | RawVal.rInt n => n != 0
  | RawVal.rFloat q => q != 0
  | RawVal.rStr s => s != ""

/-- Python `str(x)` for raw widget values (float rendering approximated by
`ratRepr`, unused by every property below). -/
def pyStr : RawVal → String
  | RawVal.rBool true => "True"
  | RawVal.rBool false => "False"
  | RawVal.rInt n => pyIntRepr n
  | RawVal.rFloat q => ratRepr q
  | RawVal.rStr s => s

/-- Truncation toward zero, as Python `int(...)` does on a float. -/
def ratTrunc (q : Rat) : Int := q.num.tdiv (q.den : Int)

/-- Python `int(x)` on a raw widget value; `none` models `ValueError`. -/
def pyIntOfRaw : RawVal → Option Int
  | RawVal.rBool b => some (if b then 1 else 0)
  | RawVal.rInt n => some n
  | RawVal.rFloat q => some (ratTrunc q)
  | RawVal.rStr s => pyIntParse s

/-- Python `float(x)` on a raw widget value; `none` models `ValueError`. -/
def pyFloatOfRaw : RawVal → Option Rat
  | RawVal.rBool b => some (if b then 1 else 0)
  | RawVal.rInt n => some ((n : Int) : Rat)
  | RawVal.rFloat q => some q
  | RawVal.rStr s => pyFloatParse s

/-- Python ASCII lowercasing of one character (`str.lower()`). -/
def pyLowerChar (c : Char) : Char :=
  if 'A' ≤ c && c ≤ 'Z' then Char.ofNat (c.toNat + 32) else c

/-- Python `str.lower()` (ASCII fragment). -/
def pyLower (s : String) : String :=
  String.mk (s.data.map pyLowerChar)

/-- A single-quote character, as Python `repr` uses around strings. -/
def pyQuote : String := String.singleton (Char.ofNat 39)

mutual
/-- Python `repr(...)` of a settings value (string escaping and float digits
approximated; no property below depends on the rendered text of a container,
which the page only uses for read-only displays). -/
def pyReprOf : Value → String
  | vBool true => "True"
  | vBool false => "False"
  | vInt n => pyIntRepr n
  | vFloat q => ratRepr q
  | vStr s => pyQuote ++ s ++ pyQuote
  | vListV items => "[" ++ pyReprItems items ++ "]"
  | vNull => "None"
  | vDict es => "\x7b" ++ pyReprEntries es ++ "\x7d"

/-- Comma-separated `repr`s of list items. -/
def pyReprItems : ValList → String
  | ValList.nil => ""
  | ValList.cons v ValList.nil => pyReprOf v
  | ValList.cons v rest => pyReprOf v ++ ", " ++ pyReprItems rest

/-- Comma-separated `repr`s of dict entries. -/
def pyReprEntries : Entries → String
  | Entries.nil => ""
  | Entries.cons k v Entries.nil => pyQuote ++ k ++ pyQuote ++ ": " ++ pyReprOf v
  | Entries.cons k v rest =>
    pyQuote ++ k ++ pyQuote ++ ": " ++ pyReprOf v ++ ", " ++ pyReprEntries rest
end

/-- Python `str(...)` of a settings value (`str` is `repr` except on
strings themselves). -/
def pyStrOfValue : Value → String
  | vStr s => s
  | v => pyReprOf v

/- ---------------------------------------------------------------------
The rebuild engine: `build_updated_settings` (source lines 150-210).
--------------------------------------------------------------------- -/

/-- The allow-listed multiline string-list keys of the rebuild branch at
source line 175. -/
def rebuildStringListKeys : List String :=
  ["sender_email", "ad_identifiers", "regular_engagement_skip_senders"]

/-- The textarea list keys of the renderer (source line 114): the rebuild
string-list keys plus `serial_numbers`. -/
def renderTextareaKeys : List String :=
  ["sender_email", "ad_identifiers", "regular_engagement_skip_senders", "serial_numbers"]

/-- The enum options the renderer offers for `log_level` (source line 107). -/
def logLevelOptions : List String := ["debug", "info", "warning", "error", "critical"]

/-- The body of the `try` block of `build_updated_settings` (source lines
162-206) for one non-mapping leaf whose identifier is present in the edit
store: coerce the raw edited value back to the original value's type,
falling back to the original value with one diagnostic where the source
catches `ValueError` / `Exception` or logs a warning.  The `session_types`
branch returns the parse result when it is a list and otherwise keeps the
original value without any diagnostic (source line 190 has no logging).  The
final Python fallback for unhandled original types is unreachable over the
closed `Value` domain. -/
def coerce_widget_value (yaml : YamlLib) (fullPath : List String) (key : String)
    (ov : Value) (wv : RawVal) : Value × List Diag :=
  match ov with
  | vBool _ => (vBool (pyTruthy wv), [])
  | vInt _ =>
    match pyIntOfRaw wv with
    | some n => (vInt n, [])
    | none => (ov, [⟨fullPath, pyStr wv⟩])
  | vFloat _ =>
    match pyFloatOfRaw wv with
    | some q => (vFloat q, [])
    | none => (ov, [⟨fullPath, pyStr wv⟩])
  | _ =>
    if key = "group_id" then
      let t := pyStrip (pyStr wv)
      (if t = "" then vNull else vStr t, [])
    else
      match ov with
      | vStr _ => (vStr (pyStr wv), [])
      | vListV _ =>
        if rebuildStringListKeys.contains key then
          (vListV (ValList.ofList
            ((((pySplitlines (pyStr wv)).map pyStrip).filter (fun l => l != "")).map vStr)), [])
        else if key = "serial_numbers" then
          let lines := (pySplitlines (pyStr wv)).map pyStrip
          (vListV (ValList.ofList
            ((lines.filter pyIsDigit).map (fun l => vInt (digitsVal l.data : Int)))),
           (lines.filter (fun l => l != "" && !pyIsDigit l)).map (fun l => ⟨fullPath, l⟩))
        else if key = "session_types" then
          match yaml.load (pyStr wv) with
          | none => (ov, [⟨fullPath, pyStr wv⟩])
          | some (vListV parsed) => (vListV parsed, [])
          | some _ => (ov, [])
        else (ov, [⟨fullPath, pyStr wv⟩])
      | vNull => (vNull, [])
      | _ => (ov, [])

/-- The treatment of one non-mapping entry by `build_updated_settings`: if
the entry's widget identifier is in the edit store (source line 160), coerce
the stored raw value; otherwise copy the original value unchanged (source
lines 207-208). -/
def build_leaf (yaml : YamlLib) (store : String → Option RawVal)
    (path : List String) (k : String) (ov : Value) : Value × List Diag :=
  match store (joinPath (path ++ [k])) with
  | some wv => coerce_widget_value yaml (path ++ [k]) k ov wv
  | none => (ov, [])

mutual
/-- `build_updated_settings(original_data_structure, key_path)` (source lines
150-210): rebuild a settings tree from the original tree and the edit store,
collecting the coercion diagnostics.  A non-mapping argument is returned
unchanged (source line 210). -/
def build_updated_settings (yaml : YamlLib) (store : String → Option RawVal) :
    Value → List String → Value × List Diag
  | vDict es, path =>
    let r := build_entries yaml store es path
    (vDict r.1, r.2)
  | v, _ => (v, [])

/-- The per-entry loop of `build_updated_settings` (source lines 154-208):
recurse into mapping values, coerce leaves whose identifier is in the edit
store, and copy leaves that were never rendered. -/
def build_entries (yaml : YamlLib) (store : String → Option RawVal) :
    Entries → List String → Entries × List Diag
  | Entries.nil, _ => (Entries.nil, [])
  | Entries.cons k ov rest, path =>
    let hd : Value × List Diag :=
      match ov with
      | vDict es2 =>
        let r := build_entries yaml store es2 (path ++ [k])
        (vDict r.1, r.2)
      | _ => build_leaf yaml store path k ov
    let tl := build_entries yaml store rest path
    (Entries.cons k hd.1 tl.1, hd.2 ++ tl.2)
end

/- ---------------------------------------------------------------------
The renderer: `render_setting` (source lines 73-147).
--------------------------------------------------------------------- -/

/-- The current value a rendered widget displays (and stores in
`st.session_state` under the leaf's identifier) for one non-mapping leaf,
following the widget-selection chain of `render_setting`: checkboxes and
number inputs hold the value itself; the `mode` / `log_level` selectboxes
hold the matching option or their default; `group_id` text inputs hold the
string or `""` for null; textarea list fields hold the `'\n'.join` of the
items; `session_types` lists of mappings hold their YAML dump; all other
lists and nulls are displayed read-only as text. -/
def displayed_value (yaml : YamlLib) (key : String) : Value → RawVal
  | vBool b => RawVal.rBool b
  | vInt n => RawVal.rInt n
  | vFloat q => RawVal.rFloat q
  | vStr s =>
    if key = "mode" then RawVal.rStr (if s = "prod" || s = "dev" then s else "prod")
    else if key = "log_level" then
      let t := pyLower s
      RawVal.rStr (if logLevelOptions.contains t then t else "info")
    else RawVal.rStr s
  | vListV items =>
    if renderTextareaKeys.contains key then
      RawVal.rStr (pyJoinNL (ValList.mapToList pyStrOfValue items))
    else if key = "session_types" && ValList.allB Value.isDictV items then
      RawVal.rStr (yaml.dump items)
    else RawVal.rStr (pyStrOfValue (vListV items))
  | vNull => if key = "group_id" then RawVal.rStr "" else RawVal.rStr "None"
  | vDict _ => RawVal.rStr ""

mutual
/-- `render_setting(key_path, value)` (source lines 73-147), projected onto
the widget state it registers: the ordered list of
`(identifier, displayed current value)` pairs, one per non-mapping leaf.  A
mapping node emits no widget of its own and recurses into its entries in
insertion order (source lines 139-141). -/
def render_setting (yaml : YamlLib) : List String → Value → List (String × RawVal)
  | path, vDict es => render_children yaml path es
  | path, v => [(joinPath path, displayed_value yaml (path.getLastD "") v)]

/-- The recursion of `render_setting` over a mapping's entries. -/
def render_children (yaml : YamlLib) : List String → Entries → List (String × RawVal)
  | _, Entries.nil => []
  | path, Entries.cons k v rest =>
    render_setting yaml (path ++ [k]) v ++ render_children yaml path rest
end

/-- The top-level section keys the page renders first, in this fixed order
(source line 253). -/
def common_keys : List String :=
  ["global", "google_sheets", "newsletters", "engagement", "query_settings"]

/-- The identifiers one top-level section contributes to the page: the
`newsletters` mapping is rendered per-entry (source lines 258-263), every
other value through a single `render_setting` call (source line 265). -/
def page_block (yaml : YamlLib) (k : String) (v : Value) : List String :=
  match v with
  | vDict nls =>
    if k = "newsletters" then
      (Entries.toList nls).flatMap
        (fun kv => (render_setting yaml [k, kv.1] kv.2).map Prod.fst)
    else (render_setting yaml [k] (vDict nls)).map Prod.fst
  | w => (render_setting yaml [k] w).map Prod.fst

/-- The sequence of widget identifiers the page produces when rendering the
whole settings mapping (source lines 250-272): the present `common_keys`
first, in their fixed order — with the `newsletters` mapping rendered
per-entry — then the remaining top-level keys in insertion order. -/
def page_render_ids (yaml : YamlLib) (es : Entries) : List String :=
  (common_keys.filter (fun k => (Entries.lookupE k es).isSome)).flatMap
    (fun k =>
      match Entries.lookupE k es with
      | some v => page_block yaml k v
      | none => []) ++
  ((Entries.toList es).filter (fun kv => !common_keys.contains kv.1)).flatMap
    (fun kv => (render_setting yaml [kv.1] kv.2).map Prod.fst)

/-- The sequence of widget identifiers `build_updated_settings` re-derives
and looks up in the edit store: one per non-mapping leaf, in the insertion
order of its traversal (source line 156 with the lookup on line 160). -/
def build_lookup_ids : Entries → List String → List String
  | Entries.nil, _ => []
  | Entries.cons k ov rest, path =>
    (match ov with
     | vDict es2 => build_lookup_ids es2 (path ++ [k])
     | _ => [joinPath (path ++ [k])]) ++ build_lookup_ids rest path

/- ---------------------------------------------------------------------
Structural observations on trees.
--------------------------------------------------------------------- -/

/-- Follow a key path through nested mappings. -/
def getPath : Value → List String → Option Value
  | v, [] => some v
  | vDict es, k :: rest =>
    match Entries.lookupE k es with
    | some v2 => getPath v2 rest
    | none => none
  | _, _ :: _ => none

mutual
/-- Two values have the same mapping skeleton: mappings match mappings with
the same keys in the same order at every nesting level, and every
non-mapping value matches every non-mapping value. -/
def sameMappingShape : Value → Value → Bool
  | vDict es, vDict es2 => sameMappingShapeE es es2
  | v, w => !v.isDictV && !w.isDictV

/-- Entry-wise mapping-skeleton comparison. -/
def sameMappingShapeE : Entries → Entries → Bool
  | Entries.nil, Entries.nil => true
  | Entries.cons k v r, Entries.cons k2 v2 r2 =>
    k == k2 && sameMappingShape v v2 && sameMappingShapeE r r2
  | _, _ => false
end

mutual
/-- All key paths reachable in a tree: for every entry of a mapping, the
path to that entry and, recursively, the paths into its sub-mappings. -/
def reachablePaths : Value → List (List String)
  | vDict es => reachablePathsE es
  | _ => []

/-- Reachable paths below a mapping's entries. -/
def reachablePathsE : Entries → List (List String)
  | Entries.nil => []
  | Entries.cons k v rest =>
    ([k] :: (reachablePaths v).map (fun p => k :: p)) ++ reachablePathsE rest
end

mutual
/-- Does every mapping key anywhere in the tree pass the test? -/
def allKeysB (p : String → Bool) : Value → Bool
  | vDict es => allKeysEB p es
  | _ => true

/-- Key test over a mapping's entries and their subtrees. -/
def allKeysEB (p : String → Bool) : Entries → Bool
  | Entries.nil => true
  | Entries.cons k v rest => p k && allKeysB p v && allKeysEB p rest
end

/-- No string occurs twice in the list. -/
def nodupB : List String → Bool
  | [] => true
  | k :: rest => !rest.contains k && nodupB rest

mutual
/-- Well-formedness a tree inherits from Python dicts: the keys of every
mapping node are pairwise distinct. -/
def wfKeys : Value → Bool
  | vDict es => nodupB (Entries.keysOf es) && wfEntries es
  | _ => true

/-- Well-formedness of a mapping's entries. -/
def wfEntries : Entries → Bool
  | Entries.nil => true
  | Entries.cons _ v rest => wfKeys v && wfEntries rest
end

/-- Edit-store lookup on an association list of widget states (keys are
unique in `st.session_state`; on a raw list this finds the first match). -/
def lookupA (id : String) : List (String × RawVal) → Option RawVal
  | [] => none
  | (k, rv) :: rest => if id = k then some rv else lookupA id rest

/-- The string contains no line break (so that `'\n'.join` round-trips
through `str.splitlines`). -/
def noLineBreak (s : String) : Bool :=
  s.data.all (fun c => c != '\n' && c != '\r')

/-- A non-mapping leaf's displayed current value coerces back to exactly the
original value: the lossless-display condition under which one edit/rebuild
cycle is the identity.  Number and plain-text leaves always qualify; `mode` /
`log_level` must hold one of their options; `group_id` must be a nonempty
trimmed string (in particular not a list, which the rebuild's `group_id`
branch would turn into text); textarea string lists must hold nonempty
trimmed line-break-free strings; `serial_numbers` must hold nonnegative
ints; `session_types` must be a list of mappings the YAML library
round-trips. -/
def goodVal (yaml : YamlLib) (key : String) : Value → Bool
  | vBool _ => true
  | vInt _ => true
  | vFloat _ => true
  | vStr s =>
    if key = "mode" then s == "prod" || s == "dev"
    else if key = "log_level" then logLevelOptions.contains s
    else if key = "group_id" then pyStrip s == s && s != ""
    else true
  | vListV items =>
    if key = "serial_numbers" then
      ValList.allB (fun v => match v with | vInt n => decide (0 ≤ n) | _ => false) items
    else if renderTextareaKeys.contains key then
      ValList.allB (fun v => match v with
        | vStr s => pyStrip s == s && s != "" && noLineBreak s
        | _ => false) items
    else if key = "session_types" then
      ValList.allB Value.isDictV items
        && (yaml.load (yaml.dump items) == some (vListV items))
    else !(key == "group_id")
  | vNull => true
  | vDict _ => true

mutual
/-- Lossless display for a whole subtree (mapping values recurse, leaves use
`goodVal` keyed by their own key). -/
def goodSubtree (yaml : YamlLib) (key : String) : Value → Bool
  | vDict es => goodEntries yaml es
  | v => goodVal yaml key v

/-- Lossless display for all leaves below a mapping's entries. -/
def goodEntries (yaml : YamlLib) : Entries → Bool
  | Entries.nil => true
  | Entries.cons k v rest => goodSubtree yaml k v && goodEntries yaml rest
end

/- ---------------------------------------------------------------------
Key-path identifiers: splitting on underscores inverts `joinPath` when no
key contains an underscore.
--------------------------------------------------------------------- -/

/-- Split a character list at underscores (the inverse of `'_'.join` on
underscore-free segments). -/
def splitU : List Char → List (List Char)
  | [] => [[]]
  | c :: cs =>
    if c = '_' then [] :: splitU cs
    else
      match splitU cs with
      | [] => [[c]]
      | l :: ls => (c :: l) :: ls

/-- `joinPath` at the character level. -/
def joinU : List (List Char) → List Char
  | [] => []
  | [p] => p
  | p :: rest => p ++ '_' :: joinU rest

theorem splitU_ne_nil : ∀ cs, splitU cs ≠ []
  | [] => by simp [splitU]
  | c :: cs => by
    simp only [splitU]
    split
    · simp
    · rcases h : splitU cs with _ | ⟨l, ls⟩ <;> simp [h]

theorem splitU_no_underscore : ∀ cs : List Char, (∀ c ∈ cs, c ≠ '_') → splitU cs = [cs]
  | [], _ => rfl
  | c :: cs, h => by
    have hc : c ≠ '_' := h c (by simp)
    have ih : splitU cs = [cs] := splitU_no_underscore cs (fun x hx => h x (by simp [hx]))
    simp [splitU, hc, ih]

theorem splitU_append : ∀ p t : List Char, (∀ c ∈ p, c ≠ '_') →
    splitU (p ++ '_' :: t) = p :: splitU t
  | [], t, _ => by simp [splitU]
  | c :: p, t, h => by
    have hc : c ≠ '_' := h c (by simp)
    have ih := splitU_append p t (fun x hx => h x (by simp [hx]))
    rcases hs : splitU t with _ | ⟨l, ls⟩
    · exact absurd hs (splitU_ne_nil t)
    · simp [splitU, hc, ih, hs]

theorem splitU_joinU : ∀ ps : List (List Char), ps ≠ [] →
    (∀ p ∈ ps, ∀ c ∈ p, c ≠ '_') → splitU (joinU ps) = ps
  | [], h, _ => absurd rfl h
  | [p], _, h => by
    simpa [joinU] using splitU_no_underscore p (h p (by simp))
  | p :: p2 :: rest, _, h => by
    have ih := splitU_joinU (p2 :: rest) (by simp) (fun x hx => h x (by simp [hx]))
    have hp := splitU_append p (joinU (p2 :: rest)) (h p (by simp))
    show splitU (p ++ '_' :: joinU (p2 :: rest)) = _
    rw [hp, ih]

theorem joinPath_data : ∀ ps : List String, (joinPath ps).data = joinU (ps.map String.data)
  | [] => rfl
  | [k] => rfl
  | k :: k2 :: rest => by
    show (k ++ "_" ++ joinPath (k2 :: rest)).data = _
    simp [joinPath_data (k2 :: rest), joinU]

theorem string_data_injective : Function.Injective String.data := by
  intro a b hab
  cases a
  cases b
  exact congrArg String.mk (by simpa using hab)

theorem joinPath_inj (ps qs : List String) (hpn : ps ≠ []) (hqn : qs ≠ [])
    (hp : ∀ k ∈ ps, ∀ c ∈ k.data, c ≠ '_') (hq : ∀ k ∈ qs, ∀ c ∈ k.data, c ≠ '_')
    (h : joinPath ps = joinPath qs) : ps = qs := by
  have hdata : joinU (ps.map String.data) = joinU (qs.map String.data) := by
    rw [← joinPath_data, ← joinPath_data, h]
  have hps : splitU (joinU (ps.map String.data)) = ps.map String.data :=
    splitU_joinU _ (by simpa using hpn)
      (by intro x hx; rcases List.mem_map.mp hx with ⟨k, hk, rfl⟩; exact hp k hk)
  have hqs : splitU (joinU (qs.map String.data)) = qs.map String.data :=
    splitU_joinU _ (by simpa using hqn)
      (by intro x hx; rcases List.mem_map.mp hx with ⟨k, hk, rfl⟩; exact hq k hk)
  have hmaps : ps.map String.data = qs.map String.data := by
    rw [← hps, ← hqs, hdata]
  exact List.map_injective_iff.mpr string_data_injective hmaps

theorem reachable_dict : ∀ (v : Value) (q : List String), q ∈ reachablePaths v →
    ∃ es2, v = vDict es2 ∧ q ∈ reachablePathsE es2 := by
  intro v
  cases v <;> simp [reachablePaths]

theorem reachableE_props (p : String → Bool) : ∀ (es : Entries) (q : List String),
    allKeysEB p es = true → q ∈ reachablePathsE es → q ≠ [] ∧ ∀ k ∈ q, p k = true
  | Entries.cons k v rest, q, hall, hq => by
    simp only [allKeysEB, Bool.and_eq_true] at hall
    obtain ⟨⟨hpk, hkv⟩, hrest⟩ := hall
    simp only [reachablePathsE, List.mem_append, List.mem_cons, List.mem_map] at hq
    rcases hq with (rfl | ⟨q', hq', rfl⟩) | hq
    · exact ⟨by simp, by simpa using hpk⟩
    · rcases reachable_dict v q' hq' with ⟨es2, rfl, hq2⟩
      have ih := reachableE_props p es2 q' (by simpa [allKeysB] using hkv) hq2
      refine ⟨by simp, ?_⟩
      intro x hx
      rcases List.mem_cons.mp hx with rfl | hx
      · exact hpk
      · exact ih.2 x hx
    · exact reachableE_props p rest q hrest hq

/-- The `identifier-safe` character set of the claim: letters, digits and
underscore. -/
def identSafe (k : String) : Bool :=
  k.data.all (fun c => c.isAlphanum || c == '_')

/-- A key containing no underscore at all. -/
def noUnderscore (k : String) : Bool :=
  k.data.all (fun c => c != '_')

theorem noUnderscore_chars {k : String} (h : noUnderscore k = true) :
    ∀ c ∈ k.data, c ≠ '_' := by
  intro c hc
  simp only [noUnderscore, List.all_eq_true] at h
  simpa using h c hc

/-- The tree on which the `'_'.join` identifier scheme collides:
`{"a_b": 1, "a": {"b": 2}}` has the two distinct reachable paths `["a_b"]`
and `["a", "b"]`, both joined to `"a_b"`. -/
def collisionTree : Value := vDict (Entries.ofList
  [("a_b", vInt 1), ("a", vDict (Entries.ofList [("b", vInt 2)]))])

/-- C1 counterexample: in a SettingsTree whose keys are all drawn from
letters, digits and underscore, two distinct reachable key paths can join to
the same identifier — `'_'.join` is not injective over this key space, so
the claim as stated is false. -/
theorem c1_counterexample :
    allKeysB identSafe collisionTree = true ∧
    ["a_b"] ∈ reachablePaths collisionTree ∧
    ["a", "b"] ∈ reachablePaths collisionTree ∧
    (["a_b"] : List String) ≠ ["a", "b"] ∧
    joinPath ["a_b"] = joinPath ["a", "b"] := by
  refine ⟨by decide, by decide, by decide, by decide, by decide⟩

/-- C1 amended: the `'_'.join` identifier scheme of `render_setting` and
`build_updated_settings` is injective over the paths reachable in a
SettingsTree provided no key contains the underscore separator (keys drawn
from letters and digits only): distinct reachable paths always join to
distinct identifiers. -/
theorem c1_keyPath_injectivity (T : Value) (p1 p2 : List String)
    (hkeys : allKeysB noUnderscore T = true)
    (h1 : p1 ∈ reachablePaths T) (h2 : p2 ∈ reachablePaths T)
    (hne : p1 ≠ p2) : joinPath p1 ≠ joinPath p2 := by
  rcases reachable_dict T p1 h1 with ⟨es, rfl, h1e⟩
  have hall : allKeysEB noUnderscore es = true := by simpa [allKeysB] using hkeys
  have hp1 := reachableE_props noUnderscore es p1 hall h1e
  have hp2 := reachableE_props noUnderscore es p2 hall (by simpa [reachablePaths] using h2)
  intro hjoin
  refine hne (joinPath_inj p1 p2 hp1.1 hp2.1 ?_ ?_ hjoin)
  · exact fun k hk => noUnderscore_chars (hp1.2 k hk)
  · exact fun k hk => noUnderscore_chars (hp2.2 k hk)

/- ---------------------------------------------------------------------
Structural isomorphism of the rebuild (C4).
--------------------------------------------------------------------- -/

theorem coerce_not_dict (yaml : YamlLib) (fullPath : List String) (key : String)
    (ov : Value) (wv : RawVal) (h : ov.isDictV = false) :
    (coerce_widget_value yaml fullPath key ov wv).1.isDictV = false := by
  cases ov with
  | vBool b => simp [coerce_widget_value, Value.isDictV]
  | vInt n =>
    rcases h2 : pyIntOfRaw wv with _ | m <;>
      simp [coerce_widget_value, h2, Value.isDictV]
  | vFloat q =>
    rcases h2 : pyFloatOfRaw wv with _ | m <;>
      simp [coerce_widget_value, h2, Value.isDictV]
  | vStr s =>
    simp only [coerce_widget_value]
    split <;> [skip; simp [Value.isDictV]]
    split <;> simp [Value.isDictV]
  | vListV items =>
    simp only [coerce_widget_value]
    split
    · split <;> simp [Value.isDictV]
    · split
      · simp [Value.isDictV]
      · split
        · simp [Value.isDictV]
        · split
          · split <;> simp [Value.isDictV]
          · simp [Value.isDictV]
  | vNull =>
    simp only [coerce_widget_value]
    split <;> [skip; simp [Value.isDictV]]
    split <;> simp [Value.isDictV]
  | vDict es => simp [Value.isDictV] at h

theorem sameMappingShape_of_not_dict (v w : Value)
    (hv : v.isDictV = false) (hw : w.isDictV = false) :
    sameMappingShape v w = true := by
  cases v <;> cases w <;> simp_all [sameMappingShape, Value.isDictV]

theorem build_leaf_shape (yaml : YamlLib) (store : String → Option RawVal)
    (path : List String) (k : String) (ov : Value) (h : ov.isDictV = false) :
    sameMappingShape (build_leaf yaml store path k ov).1 ov = true := by
  rcases hs : store (joinPath (path ++ [k])) with _ | wv
  · simp only [build_leaf, hs]
    exact sameMappingShape_of_not_dict ov ov h h
  · have hc := coerce_not_dict yaml (path ++ [k]) k ov wv h
    simp only [build_leaf, hs]
    exact sameMappingShape_of_not_dict _ ov hc h

theorem build_entries_shape (yaml : YamlLib) (store : String → Option RawVal) :
    ∀ (es : Entries) (path : List String),
    sameMappingShapeE (build_entries yaml store es path).1 es = true
  | Entries.nil, _ => rfl
  | Entries.cons k ov rest, path => by
    have ih2 := build_entries_shape yaml store rest path
    cases ov
    case vDict es2 =>
      have ih1 := build_entries_shape yaml store es2 (path ++ [k])
      simp [build_entries, sameMappingShapeE, sameMappingShape, ih1, ih2]
    all_goals
      simp [build_entries, sameMappingShapeE, ih2, build_leaf_shape, Value.isDictV]

/-- C4: for every settings tree, every edit store and every YAML library,
`build_updated_settings` returns a tree with exactly the same mapping
skeleton as the original: the same keys in the same order at every nesting
level of nested mappings — it never drops a key and never adds one. -/
theorem c4_structural_isomorphism (yaml : YamlLib) (store : String → Option RawVal)
    (T : Value) (path : List String) :
    sameMappingShape (build_updated_settings yaml store T path).1 T = true := by
  cases T with
  | vDict es =>
    simpa [build_updated_settings, sameMappingShape] using build_entries_shape yaml store es path
  | vBool b => simp [build_updated_settings, sameMappingShape, Value.isDictV]
  | vInt n => simp [build_updated_settings, sameMappingShape, Value.isDictV]
  | vFloat q => simp [build_updated_settings, sameMappingShape, Value.isDictV]
  | vStr s => simp [build_updated_settings, sameMappingShape, Value.isDictV]
  | vListV items => simp [build_updated_settings, sameMappingShape, Value.isDictV]
  | vNull => simp [build_updated_settings, sameMappingShape, Value.isDictV]

/- ---------------------------------------------------------------------
Looking up a key in a rebuilt mapping, and type preservation (C3).
--------------------------------------------------------------------- -/

/-- What `build_updated_settings` stores under one key of a mapping:
sub-mappings are rebuilt recursively, other values go through `build_leaf`. -/
def rebuilt_entry (yaml : YamlLib) (store : String → Option RawVal)
    (path : List String) (k : String) : Value → Value
  | vDict es2 => vDict (build_entries yaml store es2 (path ++ [k])).1
  | ov => (build_leaf yaml store path k ov).1

theorem lookupE_build_entries (yaml : YamlLib) (store : String → Option RawVal) :
    ∀ (es : Entries) (path : List String) (k : String),
    Entries.lookupE k (build_entries yaml store es path).1 =
      (Entries.lookupE k es).map (rebuilt_entry yaml store path k)
  | Entries.nil, _, _ => rfl
  | Entries.cons k2 ov rest, path, k => by
    by_cases hk : k = k2
    · subst hk
      cases ov <;> simp [build_entries, Entries.lookupE, rebuilt_entry]
    · cases ov <;>
        simp [build_entries, Entries.lookupE, hk,
          lookupE_build_entries yaml store rest path k]

theorem coerce_type (yaml : YamlLib) (fullPath : List String) (k : String)
    (ov : Value) (wv : RawVal) (hk : k ≠ "group_id") :
    typeOf (coerce_widget_value yaml fullPath k ov wv).1 = typeOf ov := by
  cases ov with
  | vBool b => rfl
  | vInt n => rcases h2 : pyIntOfRaw wv with _ | m <;> simp [coerce_widget_value, h2, typeOf]
  | vFloat q => rcases h2 : pyFloatOfRaw wv with _ | m <;> simp [coerce_widget_value, h2, typeOf]
  | vStr s => simp [coerce_widget_value, hk, typeOf]
  | vListV items =>
    simp only [coerce_widget_value, if_neg hk]
    split
    · simp [typeOf]
    · split
      · simp [typeOf]
      · split
        · split <;> simp [typeOf]
        · simp [typeOf]
  | vNull => simp [coerce_widget_value, hk, typeOf]
  | vDict es => simp [coerce_widget_value, hk, typeOf]

theorem build_leaf_type (yaml : YamlLib) (store : String → Option RawVal)
    (path : List String) (k : String) (ov : Value) (hk : k ≠ "group_id") :
    typeOf (build_leaf yaml store path k ov).1 = typeOf ov := by
  rcases hs : store (joinPath (path ++ [k])) with _ | wv
  · simp [build_leaf, hs]
  · simp [build_leaf, hs, coerce_type yaml (path ++ [k]) k ov wv hk]

theorem getPath_not_dict (v : Value) (x : String) (xs : List String)
    (h : v.isDictV = false) : getPath v (x :: xs) = none := by
  cases v <;> simp_all [getPath, Value.isDictV]

theorem build_leaf_not_dict (yaml : YamlLib) (store : String → Option RawVal)
    (path : List String) (k : String) (ov : Value) (h : ov.isDictV = false) :
    (build_leaf yaml store path k ov).1.isDictV = false := by
  rcases hs : store (joinPath (path ++ [k])) with _ | wv
  · simpa [build_leaf, hs] using h
  · simpa [build_leaf, hs] using coerce_not_dict yaml (path ++ [k]) k ov wv h

theorem rebuilt_entry_of_not_dict (yaml : YamlLib) (store : String → Option RawVal)
    (path : List String) (k : String) (ov : Value) (h : ov.isDictV = false) :
    rebuilt_entry yaml store path k ov = (build_leaf yaml store path k ov).1 := by
  cases ov <;> simp_all [rebuilt_entry, Value.isDictV]

theorem getPath_type_leaf (yaml : YamlLib) (store : String → Option RawVal)
    (path : List String) (k : String) (rest : List String) (ov : Value)
    (hov : ov.isDictV = false) (hlast : (k :: rest).getLastD "" ≠ "group_id") :
    Option.map typeOf (getPath (rebuilt_entry yaml store path k ov) rest) =
      Option.map typeOf (getPath ov rest) := by
  rw [rebuilt_entry_of_not_dict yaml store path k ov hov]
  cases rest with
  | nil =>
    have hkl : k ≠ "group_id" := by simpa using hlast
    simp [getPath, build_leaf_type yaml store path k ov hkl]
  | cons r rs =>
    rw [getPath_not_dict ov r rs hov,
      getPath_not_dict _ r rs (build_leaf_not_dict yaml store path k ov hov)]

theorem getPath_type (yaml : YamlLib) (store : String → Option RawVal) :
    ∀ (q : List String) (es : Entries) (path : List String),
    q.getLastD "" ≠ "group_id" →
    Option.map typeOf (getPath (vDict (build_entries yaml store es path).1) q) =
      Option.map typeOf (getPath (vDict es) q) := by
  intro q
  induction q with
  | nil => intro es path _; simp [getPath, typeOf]
  | cons k rest ih =>
    intro es path hlast
    simp only [getPath]
    rw [lookupE_build_entries yaml store es path k]
    rcases hl : Entries.lookupE k es with _ | ov
    · simp
    · simp only [Option.map_some]
      cases ov
      case vDict es2 =>
        cases rest with
        | nil => simp [rebuilt_entry, getPath, typeOf]
        | cons r rs =>
          have heq : (k :: r :: rs).getLastD "" = (r :: rs).getLastD "" := by
            simp [List.getLastD_cons]
          exact ih es2 (path ++ [k]) (by rw [← heq]; exact hlast)
      all_goals
        exact getPath_type_leaf yaml store path k rest _ (by simp [Value.isDictV]) hlast

/-- The tree `{"group_id": "abc"}` and the edit store holding the edited
text `""` for it. -/
def groupIdStrTree : Value := vDict (Entries.ofList [("group_id", vStr "abc")])

/-- The edit store holding `""` under the identifier `group_id`. -/
def groupIdEmptyStore : String → Option RawVal := fun id =>
  if id = "group_id" then some (RawVal.rStr "") else none

/-- A YAML library that parses nothing and dumps nothing (the `session_types`
machinery is not exercised by the concrete scenarios that use it). -/
def trivYaml : YamlLib := { dump := fun _ => "", load := fun _ => none }

/-- C3 counterexample: type preservation fails at a `group_id` leaf.  In
`{"group_id": "abc"}` with edited value `""`, the rebuilt tree holds `null`
where the original held a string: the runtime type of the rebuilt leaf
differs from the original's. -/
theorem c3_counterexample :
    Option.map typeOf (getPath (build_updated_settings trivYaml groupIdEmptyStore
      groupIdStrTree []).1 ["group_id"]) = some VType.tNull ∧
    Option.map typeOf (getPath groupIdStrTree ["group_id"]) = some VType.tStr ∧
    Option.map typeOf (getPath (build_updated_settings trivYaml groupIdEmptyStore
        groupIdStrTree []).1 ["group_id"]) ≠
      Option.map typeOf (getPath groupIdStrTree ["group_id"]) := by
  refine ⟨by decide, by decide, by decide⟩

/-- C3 amended: for every settings tree, every YAML library, every edit
store and every path whose final key is not `group_id`, the runtime type of
the rebuilt value at that path equals the runtime type of the original
value at that path (bool stays bool, int stays int, float stays float,
string stays string, list stays list, null stays null, mapping stays
mapping).  At a `group_id` leaf the OptionalText rule of the source (lines
169-170) deliberately exchanges strings and null, so type preservation
cannot include it. -/
theorem c3_type_preservation (yaml : YamlLib) (store : String → Option RawVal)
    (T : Value) (q : List String) (hq : q.getLastD "" ≠ "group_id") :
    Option.map typeOf (getPath (build_updated_settings yaml store T []).1 q) =
      Option.map typeOf (getPath T q) := by
  cases T with
  | vDict es => exact getPath_type yaml store q es [] hq
  | vBool b => rfl
  | vInt n => rfl
  | vFloat q2 => rfl
  | vStr s => rfl
  | vListV items => rfl
  | vNull => rfl

/-- Witness for the amended C3 theorem: in `{"a": {"n": 5}}` with the
non-numeric edit `"abc"` stored for `a_n`, the rebuilt value at
`["a", "n"]` still has int type. -/
theorem c3_type_preservation_witness :
    ((["a", "n"] : List String).getLastD "" ≠ "group_id") ∧
    Option.map typeOf (getPath (build_updated_settings trivYaml
        (fun id => if id = "a_n" then some (RawVal.rStr "abc") else none)
        (vDict (Entries.ofList [("a", vDict (Entries.ofList [("n", vInt 5)]))])) []).1
      ["a", "n"]) =
      Option.map typeOf (getPath
        (vDict (Entries.ofList [("a", vDict (Entries.ofList [("n", vInt 5)]))]))
        ["a", "n"]) :=
  ⟨by decide,
   c3_type_preservation trivYaml
     (fun id => if id = "a_n" then some (RawVal.rStr "abc") else none)
     (vDict (Entries.ofList [("a", vDict (Entries.ofList [("n", vInt 5)]))]))
     ["a", "n"] (by decide)⟩

/- ---------------------------------------------------------------------
Locating the rebuilt value and the diagnostics of one leaf.
--------------------------------------------------------------------- -/

theorem dropLast_append_getLastD : ∀ (l : List String), l ≠ [] →
    l.dropLast ++ [l.getLastD ""] = l
  | [k], _ => rfl
  | k :: k2 :: rest, _ => by
    have ih := dropLast_append_getLastD (k2 :: rest) (by simp)
    simp only [List.dropLast_cons₂, List.getLastD_cons, List.cons_append]
    rw [List.getLastD_cons] at ih
    exact congrArg (k :: ·) ih

theorem getPath_build_leaf (yaml : YamlLib) (store : String → Option RawVal) :
    ∀ (q : List String) (es : Entries) (path : List String) (ov : Value),
    getPath (vDict es) q = some ov → ov.isDictV = false →
    getPath (vDict (build_entries yaml store es path).1) q =
      some (build_leaf yaml store (path ++ q.dropLast) (q.getLastD "") ov).1 := by
  intro q
  induction q with
  | nil =>
    intro es path ov hget hov
    simp only [getPath, Option.some.injEq] at hget
    rw [← hget] at hov
    simp [Value.isDictV] at hov
  | cons k rest ih =>
    intro es path ov hget hov
    simp only [getPath] at hget ⊢
    rw [lookupE_build_entries yaml store es path k]
    rcases hl : Entries.lookupE k es with _ | v2
    · rw [hl] at hget; exact absurd hget (by simp)
    · rw [hl] at hget
      simp only [Option.map_some']
      cases rest with
      | nil =>
        have hg2 : v2 = ov := by simpa [getPath] using hget
        rw [← hg2] at hov
        rw [← hg2]
        show getPath (rebuilt_entry yaml store path k v2) [] = _
        rw [rebuilt_entry_of_not_dict yaml store path k v2 hov]
        simp [getPath]
      | cons r rs =>
        have hg2 : getPath v2 (r :: rs) = some ov := hget
        cases v2 with
        | vDict es2 =>
          have hrec := ih es2 (path ++ [k]) ov hg2 hov
          show getPath (rebuilt_entry yaml store path k (vDict es2)) (r :: rs) = _
          simp only [rebuilt_entry]
          rw [hrec]
          simp [List.dropLast_cons₂, List.getLastD_cons, List.append_assoc]
        | vBool b =>
          rw [getPath_not_dict _ r rs (by simp [Value.isDictV])] at hg2
          exact absurd hg2 (by simp)
        | vInt n =>
          rw [getPath_not_dict _ r rs (by simp [Value.isDictV])] at hg2
          exact absurd hg2 (by simp)
        | vFloat q2 =>
          rw [getPath_not_dict _ r rs (by simp [Value.isDictV])] at hg2
          exact absurd hg2 (by simp)
        | vStr s =>
          rw [getPath_not_dict _ r rs (by simp [Value.isDictV])] at hg2
          exact absurd hg2 (by simp)
        | vListV items =>
          rw [getPath_not_dict _ r rs (by simp [Value.isDictV])] at hg2
          exact absurd hg2 (by simp)
        | vNull =>
          rw [getPath_not_dict _ r rs (by simp [Value.isDictV])] at hg2
          exact absurd hg2 (by simp)

theorem coerce_diag_path (yaml : YamlLib) (fullPath : List String) (k : String)
    (ov : Value) (wv : RawVal) :
    ∀ d ∈ (coerce_widget_value yaml fullPath k ov wv).2, d.path = fullPath := by
  intro d hd
  cases ov with
  | vBool b => simp [coerce_widget_value] at hd
  | vInt n =>
    simp only [coerce_widget_value] at hd
    rcases h2 : pyIntOfRaw wv with _ | m <;> rw [h2] at hd <;> simp_all
  | vFloat q =>
    simp only [coerce_widget_value] at hd
    rcases h2 : pyFloatOfRaw wv with _ | m <;> rw [h2] at hd <;> simp_all
  | vStr s =>
    simp only [coerce_widget_value] at hd
    split at hd
    · split at hd <;> simp at hd
    · simp at hd
  | vListV items =>
    simp only [coerce_widget_value] at hd
    split at hd
    · split at hd <;> simp at hd
    · split at hd
      · simp at hd
      · split at hd
        · rcases List.mem_map.mp hd with ⟨l, _, hdl⟩
          rw [← hdl]
        · split at hd
          · split at hd <;> simp_all
          · simp_all
  | vNull =>
    simp only [coerce_widget_value] at hd
    split at hd
    · split at hd <;> simp at hd
    · simp at hd
  | vDict es =>
    simp only [coerce_widget_value] at hd
    split at hd
    · split at hd <;> simp at hd
    · simp at hd

theorem build_leaf_diag_path (yaml : YamlLib) (store : String → Option RawVal)
    (path : List String) (k : String) (ov : Value) :
    ∀ d ∈ (build_leaf yaml store path k ov).2, d.path = path ++ [k] := by
  intro d hd
  rcases hs : store (joinPath (path ++ [k])) with _ | wv
  · simp [build_leaf, hs] at hd
  · rw [build_leaf, hs] at hd
    exact coerce_diag_path yaml (path ++ [k]) k ov wv d hd

theorem build_entries_diag_paths (yaml : YamlLib) (store : String → Option RawVal) :
    ∀ (es : Entries) (path : List String) (d : Diag),
    d ∈ (build_entries yaml store es path).2 →
    ∃ k t, d.path = path ++ k :: t ∧ k ∈ Entries.keysOf es
  | Entries.nil, path, d => by simp [build_entries]
  | Entries.cons k2 ov rest, path, d => by
    intro hd
    have hsplit : d ∈ (match ov with
        | vDict es2 =>
          let r := build_entries yaml store es2 (path ++ [k2])
          ((vDict r.1, r.2) : Value × List Diag)
        | _ => build_leaf yaml store path k2 ov).2 ∨
        d ∈ (build_entries yaml store rest path).2 := by
      cases ov <;> simpa [build_entries] using hd
    rcases hsplit with hd1 | hd2
    · cases ov with
      | vDict es2 =>
        rcases build_entries_diag_paths yaml store es2 (path ++ [k2]) d (by simpa using hd1)
          with ⟨k', t', hp, _⟩
        exact ⟨k2, k' :: t', by simpa [List.append_assoc] using hp, by simp [Entries.keysOf]⟩
      | vBool b => exact ⟨k2, [], build_leaf_diag_path yaml store path k2 _ d hd1, by simp [Entries.keysOf]⟩
      | vInt n => exact ⟨k2, [], build_leaf_diag_path yaml store path k2 _ d hd1, by simp [Entries.keysOf]⟩
      | vFloat q => exact ⟨k2, [], build_leaf_diag_path yaml store path k2 _ d hd1, by simp [Entries.keysOf]⟩
      | vStr s => exact ⟨k2, [], build_leaf_diag_path yaml store path k2 _ d hd1, by simp [Entries.keysOf]⟩
      | vListV items => exact ⟨k2, [], build_leaf_diag_path yaml store path k2 _ d hd1, by simp [Entries.keysOf]⟩
      | vNull => exact ⟨k2, [], build_leaf_diag_path yaml store path k2 _ d hd1, by simp [Entries.keysOf]⟩
    · rcases build_entries_diag_paths yaml store rest path d hd2 with ⟨k', t', hp, hk'⟩
      exact ⟨k', t', hp, by simp [Entries.keysOf, hk']⟩

theorem build_entries_cons_dict (yaml : YamlLib) (store : String → Option RawVal)
    (k2 : String) (es2 rest2 : Entries) (path : List String) :
    build_entries yaml store (Entries.cons k2 (vDict es2) rest2) path =
      (Entries.cons k2 (vDict (build_entries yaml store es2 (path ++ [k2])).1)
        (build_entries yaml store rest2 path).1,
       (build_entries yaml store es2 (path ++ [k2])).2 ++
        (build_entries yaml store rest2 path).2) := by
  simp [build_entries]

theorem build_entries_cons_leaf (yaml : YamlLib) (store : String → Option RawVal)
    (k2 : String) (ov2 : Value) (rest2 : Entries) (path : List String)
    (h : ov2.isDictV = false) :
    build_entries yaml store (Entries.cons k2 ov2 rest2) path =
      (Entries.cons k2 (build_leaf yaml store path k2 ov2).1
        (build_entries yaml store rest2 path).1,
       (build_leaf yaml store path k2 ov2).2 ++
        (build_entries yaml store rest2 path).2) := by
  cases ov2 <;> simp_all [build_entries, Value.isDictV]

theorem append_cons_ne {path t rest : List String} {k2 k : String} (h : k2 ≠ k) :
    path ++ k2 :: t ≠ path ++ k :: rest := by
  intro he
  exact h (List.cons.injEq .. ▸ List.append_cancel_left he).1

theorem getPath_cons_entries (es : Entries) (k : String) (rest : List String) :
    getPath (vDict es) (k :: rest) =
      match Entries.lookupE k es with
      | some v2 => getPath v2 rest
      | none => none := rfl

theorem build_entries_diag_filter (yaml : YamlLib) (store : String → Option RawVal) :
    ∀ (es : Entries) (path : List String) (k : String) (rest : List String) (ov : Value),
    nodupB (Entries.keysOf es) = true → wfEntries es = true →
    getPath (vDict es) (k :: rest) = some ov → ov.isDictV = false →
    (build_entries yaml store es path).2.filter
        (fun d => d.path == path ++ k :: rest) =
      (build_leaf yaml store (path ++ (k :: rest).dropLast)
        ((k :: rest).getLastD "") ov).2
  | Entries.nil, path, k, rest, ov => by
    intro _ _ hget _
    rw [getPath_cons_entries] at hget
    simp [Entries.lookupE] at hget
  | Entries.cons k2 ov2 rest2, path, k, rest, ov => by
    intro hnd hwf hget hov
    have hnds : (Entries.keysOf rest2).contains k2 = false ∧
        nodupB (Entries.keysOf rest2) = true := by
      simpa [nodupB, Entries.keysOf] using hnd
    have hwfs : wfKeys ov2 = true ∧ wfEntries rest2 = true := by
      simpa [wfEntries] using hwf
    rw [getPath_cons_entries] at hget
    by_cases hk : k = k2
    · subst hk
      have hgetv : getPath ov2 rest = some ov := by
        simpa [Entries.lookupE] using hget
      have htl : (build_entries yaml store rest2 path).2.filter
          (fun d => d.path == path ++ k :: rest) = [] := by
        rw [List.filter_eq_nil_iff]
        intro d hd
        rcases build_entries_diag_paths yaml store rest2 path d hd with ⟨k', t', hp, hk'⟩
        have hkk : k' ≠ k := by
          intro he
          subst he
          have : (Entries.keysOf rest2).contains k' = true :=
            List.contains_iff_exists_mem_beq .. |>.mpr ⟨k', hk', by simp⟩
          rw [this] at hnds
          exact absurd hnds.1 (by simp)
        simp only [beq_iff_eq, hp]
        exact fun he => (append_cons_ne hkk) he
      cases rest with
      | nil =>
        have hov2 : ov2 = ov := by simpa [getPath] using hgetv
        subst hov2
        rw [build_entries_cons_leaf yaml store k ov2 rest2 path hov]
        simp only [List.filter_append, htl, List.append_nil]
        rw [List.filter_eq_self.mpr]
        · simp
        · intro d hd
          simp only [beq_iff_eq]
          simpa using build_leaf_diag_path yaml store path k ov2 d hd
      | cons r rs =>
        cases ov2 with
        | vDict es2 =>
          rw [build_entries_cons_dict]
          simp only [List.filter_append, htl, List.append_nil]
          have hwfd : nodupB (Entries.keysOf es2) = true ∧ wfEntries es2 = true := by
            simpa [wfKeys] using hwfs.1
          have hrec := build_entries_diag_filter yaml store es2 (path ++ [k]) r rs ov
            hwfd.1 hwfd.2 hgetv hov
          have hpath : path ++ k :: r :: rs = (path ++ [k]) ++ r :: rs := by
            simp
          rw [hpath, hrec]
          simp [List.dropLast_cons₂, List.getLastD_cons, List.append_assoc]
        | vBool b =>
          rw [getPath_not_dict _ r rs (by simp [Value.isDictV])] at hgetv
          exact absurd hgetv (by simp)
        | vInt n =>
          rw [getPath_not_dict _ r rs (by simp [Value.isDictV])] at hgetv
          exact absurd hgetv (by simp)
        | vFloat q2 =>
          rw [getPath_not_dict _ r rs (by simp [Value.isDictV])] at hgetv
          exact absurd hgetv (by simp)
        | vStr s =>
          rw [getPath_not_dict _ r rs (by simp [Value.isDictV])] at hgetv
          exact absurd hgetv (by simp)
        | vListV items =>
          rw [getPath_not_dict _ r rs (by simp [Value.isDictV])] at hgetv
          exact absurd hgetv (by simp)
        | vNull =>
          rw [getPath_not_dict _ r rs (by simp [Value.isDictV])] at hgetv
          exact absurd hgetv (by simp)
    · simp only [Entries.lookupE, if_neg hk] at hget
      have hhd : ∀ d ∈ (match ov2 with
          | vDict es2 =>
            let r := build_entries yaml store es2 (path ++ [k2])
            ((vDict r.1, r.2) : Value × List Diag)
          | _ => build_leaf yaml store path k2 ov2).2, ∃ t, d.path = path ++ k2 :: t := by
        intro d hd
        cases ov2 with
        | vDict es2 =>
          rcases build_entries_diag_paths yaml store es2 (path ++ [k2]) d (by simpa using hd)
            with ⟨k', t', hp, _⟩
          exact ⟨k' :: t', by simpa [List.append_assoc] using hp⟩
        | vBool b => exact ⟨[], build_leaf_diag_path yaml store path k2 _ d hd⟩
        | vInt n => exact ⟨[], build_leaf_diag_path yaml store path k2 _ d hd⟩
        | vFloat q2 => exact ⟨[], build_leaf_diag_path yaml store path k2 _ d hd⟩
        | vStr s => exact ⟨[], build_leaf_diag_path yaml store path k2 _ d hd⟩
        | vListV items => exact ⟨[], build_leaf_diag_path yaml store path k2 _ d hd⟩
        | vNull => exact ⟨[], build_leaf_diag_path yaml store path k2 _ d hd⟩
      have hsplit : (build_entries yaml store (Entries.cons k2 ov2 rest2) path).2 =
          (match ov2 with
          | vDict es2 =>
            let r := build_entries yaml store es2 (path ++ [k2])
            ((vDict r.1, r.2) : Value × List Diag)
          | _ => build_leaf yaml store path k2 ov2).2 ++
            (build_entries yaml store rest2 path).2 := by
        cases ov2 <;> simp [build_entries]
      rw [hsplit, List.filter_append]
      have hhdnil : (match ov2 with
          | vDict es2 =>
            let r := build_entries yaml store es2 (path ++ [k2])
            ((vDict r.1, r.2) : Value × List Diag)
          | _ => build_leaf yaml store path k2 ov2).2.filter
            (fun (d : Diag) => d.path == path ++ k :: rest) = [] := by
        rw [List.filter_eq_nil_iff]
        intro d hd
        rcases hhd d hd with ⟨t, hp⟩
        simp only [beq_iff_eq, hp]
        exact fun he => (append_cons_ne (Ne.symm hk)) he
      rw [hhdnil, List.nil_append]
      exact build_entries_diag_filter yaml store rest2 path k rest ov hnds.2 hwfs.2
        (by rw [getPath_cons_entries]; exact hget) hov

theorem build_top (yaml : YamlLib) (store : String → Option RawVal) (es : Entries) :
    build_updated_settings yaml store (vDict es) [] =
      (vDict (build_entries yaml store es []).1, (build_entries yaml store es []).2) := by
  simp [build_updated_settings]

theorem getPath_some_not_dict_ne_nil (es : Entries) (q : List String) (ov : Value)
    (hget : getPath (vDict es) q = some ov) (hov : ov.isDictV = false) : q ≠ [] := by
  rintro rfl
  simp only [getPath, Option.some.injEq] at hget
  rw [← hget] at hov
  simp [Value.isDictV] at hov

theorem getPath_build_top (yaml : YamlLib) (store : String → Option RawVal)
    (es : Entries) (q : List String) (ov : Value)
    (hget : getPath (vDict es) q = some ov) (hov : ov.isDictV = false) :
    getPath (build_updated_settings yaml store (vDict es) []).1 q =
      some (match store (joinPath q) with
        | some wv => (coerce_widget_value yaml q (q.getLastD "") ov wv).1
        | none => ov) := by
  have hqne := getPath_some_not_dict_ne_nil es q ov hget hov
  have h := getPath_build_leaf yaml store q es [] ov hget hov
  simp only [List.nil_append] at h
  rw [build_top, h]
  congr 1
  simp only [build_leaf]
  rw [dropLast_append_getLastD q hqne]
  rcases store (joinPath q) with _ | wv <;> rfl

theorem diag_filter_top (yaml : YamlLib) (store : String → Option RawVal)
    (es : Entries) (q : List String) (ov : Value)
    (hwf : wfKeys (vDict es) = true)
    (hget : getPath (vDict es) q = some ov) (hov : ov.isDictV = false) :
    (build_updated_settings yaml store (vDict es) []).2.filter
        (fun d => d.path == q) =
      (match store (joinPath q) with
        | some wv => (coerce_widget_value yaml q (q.getLastD "") ov wv).2
        | none => []) := by
  have hqne := getPath_some_not_dict_ne_nil es q ov hget hov
  have hwfc : nodupB (Entries.keysOf es) = true ∧ wfEntries es = true := by
    simpa [wfKeys] using hwf
  rcases q with _ | ⟨k, rest⟩
  · exact absurd rfl hqne
  · have h := build_entries_diag_filter yaml store es [] k rest ov hwfc.1 hwfc.2 hget hov
    simp only [List.nil_append] at h
    rw [build_top, h]
    simp only [build_leaf]
    rw [dropLast_append_getLastD (k :: rest) hqne]
    rcases store (joinPath (k :: rest)) with _ | wv <;> rfl

/- ---------------------------------------------------------------------
Evaluating the per-leaf coercion on the branches the claims exercise.
--------------------------------------------------------------------- -/

theorem coerce_bool (yaml : YamlLib) (fullPath : List String) (key : String)
    (b : Bool) (wv : RawVal) :
    coerce_widget_value yaml fullPath key (vBool b) wv = (vBool (pyTruthy wv), []) := rfl

theorem coerce_int_abc (yaml : YamlLib) (fullPath : List String) (key : String) (n : Int) :
    coerce_widget_value yaml fullPath key (vInt n) (RawVal.rStr "abc") =
      (vInt n, [⟨fullPath, "abc"⟩]) := by
  have h : pyIntOfRaw (RawVal.rStr "abc") = none := by decide
  simp [coerce_widget_value, h, pyStr]

theorem coerce_group_id (yaml : YamlLib) (fullPath : List String) (ov : Value) (e : String)
    (hov : ov = vNull ∨ ∃ s0, ov = vStr s0) :
    coerce_widget_value yaml fullPath "group_id" ov (RawVal.rStr e) =
      (if pyStrip e = "" then vNull else vStr (pyStrip e), []) := by
  rcases hov with rfl | ⟨s0, rfl⟩ <;> simp [coerce_widget_value, pyStr]

theorem coerce_serial (yaml : YamlLib) (fullPath : List String)
    (items : ValList) (txt : String) :
    coerce_widget_value yaml fullPath "serial_numbers" (vListV items) (RawVal.rStr txt) =
      (vListV (ValList.ofList
        ((((pySplitlines txt).map pyStrip).filter pyIsDigit).map
          (fun l => vInt (digitsVal l.data : Int)))),
       (((pySplitlines txt).map pyStrip).filter
          (fun l => l != "" && !pyIsDigit l)).map (fun l => ⟨fullPath, l⟩)) := by
  have h1 : "serial_numbers" ∉ rebuildStringListKeys := by decide
  simp [coerce_widget_value, h1, pyStr]

theorem coerce_session_types (yaml : YamlLib) (fullPath : List String)
    (items : ValList) (txt : String) :
    coerce_widget_value yaml fullPath "session_types" (vListV items) (RawVal.rStr txt) =
      (match yaml.load txt with
        | none => (vListV items, [⟨fullPath, txt⟩])
        | some (vListV parsed) => (vListV parsed, [])
        | some _ => (vListV items, [])) := by
  have h1 : "session_types" ∉ rebuildStringListKeys := by decide
  simp [coerce_widget_value, h1, pyStr]

/- ---------------------------------------------------------------------
Claims C6 - C10: per-leaf coercion behaviour of the rebuild.
--------------------------------------------------------------------- -/

/-- C10: a bool leaf whose identifier is in the edit store always rebuilds
to the truthiness cast `bool(editedValue)` of the raw edited value, whatever
its type; the branch never raises, so a bool leaf never yields a coercion
diagnostic and never falls back to its original value. -/
theorem c10_bool_truthiness (yaml : YamlLib) (store : String → Option RawVal)
    (es : Entries) (q : List String) (b : Bool) (wv : RawVal)
    (hwf : wfKeys (vDict es) = true)
    (hget : getPath (vDict es) q = some (vBool b))
    (hstore : store (joinPath q) = some wv) :
    getPath (build_updated_settings yaml store (vDict es) []).1 q =
      some (vBool (pyTruthy wv)) ∧
    (build_updated_settings yaml store (vDict es) []).2.countP
      (fun d => d.path == q) = 0 := by
  constructor
  · rw [getPath_build_top yaml store es q _ hget (by simp [Value.isDictV])]
    simp [hstore, coerce_bool]
  · rw [List.countP_eq_length_filter,
      diag_filter_top yaml store es q _ hwf hget (by simp [Value.isDictV])]
    simp [hstore, coerce_bool]

/-- Witness for C10: in `{"flag": false}` the edit `"yes"` rebuilds the bool
leaf to `true` with no diagnostic. -/
theorem c10_bool_truthiness_witness :
    wfKeys (vDict (Entries.ofList [("flag", vBool false)])) = true ∧
    getPath (vDict (Entries.ofList [("flag", vBool false)])) ["flag"] =
      some (vBool false) ∧
    ((fun id => if id = "flag" then some (RawVal.rStr "yes") else none) (joinPath ["flag"]) =
      some (RawVal.rStr "yes")) ∧
    (getPath (build_updated_settings trivYaml
        (fun id => if id = "flag" then some (RawVal.rStr "yes") else none)
        (vDict (Entries.ofList [("flag", vBool false)])) []).1 ["flag"] =
      some (vBool (pyTruthy (RawVal.rStr "yes"))) ∧
    (build_updated_settings trivYaml
        (fun id => if id = "flag" then some (RawVal.rStr "yes") else none)
        (vDict (Entries.ofList [("flag", vBool false)])) []).2.countP
      (fun d => d.path == ["flag"]) = 0) :=
  ⟨by decide, by decide, by decide,
   c10_bool_truthiness trivYaml _ _ ["flag"] false (RawVal.rStr "yes")
     (by decide) (by decide) (by decide)⟩

/-- C9: a `group_id` leaf whose original value is a string or null rebuilds
to the edited string trimmed of surrounding whitespace, and to null whenever
the trimmed edit is empty. -/
theorem c9_group_id_coercion (yaml : YamlLib) (store : String → Option RawVal)
    (es : Entries) (q : List String) (ov : Value) (e : String)
    (hlast : q.getLastD "" = "group_id")
    (hov : ov = vNull ∨ ∃ s0, ov = vStr s0)
    (hget : getPath (vDict es) q = some ov)
    (hstore : store (joinPath q) = some (RawVal.rStr e)) :
    getPath (build_updated_settings yaml store (vDict es) []).1 q =
      some (if pyStrip e = "" then vNull else vStr (pyStrip e)) := by
  have hovd : ov.isDictV = false := by
    rcases hov with rfl | ⟨s0, rfl⟩ <;> simp [Value.isDictV]
  rw [getPath_build_top yaml store es q ov hget hovd]
  rw [hstore, hlast]
  simp [coerce_group_id yaml q ov e hov]

/-- The tree `{"group_id": "abc123"}` of the C9 scenario. -/
def groupIdAbcTree : Value := vDict (Entries.ofList [("group_id", vStr "abc123")])

/-- Witness for C9, which is also the claim's concrete scenario:
`{"group_id": "abc123"}` edited to `""` rebuilds to `{"group_id": null}`. -/
theorem c9_group_id_coercion_witness :
    ((["group_id"] : List String).getLastD "" = "group_id") ∧
    getPath groupIdAbcTree ["group_id"] = some (vStr "abc123") ∧
    groupIdEmptyStore (joinPath ["group_id"]) = some (RawVal.rStr "") ∧
    getPath (build_updated_settings trivYaml groupIdEmptyStore groupIdAbcTree []).1
      ["group_id"] = some (if pyStrip "" = "" then vNull else vStr (pyStrip "")) ∧
    (build_updated_settings trivYaml groupIdEmptyStore groupIdAbcTree []).1 =
      vDict (Entries.ofList [("group_id", vNull)]) :=
  ⟨by decide, by decide, by decide,
   c9_group_id_coercion trivYaml groupIdEmptyStore
     (Entries.ofList [("group_id", vStr "abc123")]) ["group_id"] (vStr "abc123") ""
     (by decide) (Or.inr ⟨"abc123", rfl⟩) (by decide) (by decide),
   by decide⟩

/-- The tree `{"a_b": 5, "a": {"b": "x"}}`: the int leaf `a_b` and the
string leaf `a.b` share the identifier `"a_b"`. -/
def contaminationTree : Value := vDict (Entries.ofList
  [("a_b", vInt 5), ("a", vDict (Entries.ofList [("b", vStr "x")]))])

/-- The edit store holding the non-numeric text `"abc"` under `a_b`. -/
def abcStore : String → Option RawVal := fun id =>
  if id = "a_b" then some (RawVal.rStr "abc") else none

/-- C6 counterexample: the failing int field `a_b` does keep its original
value with exactly one diagnostic, but its failure contaminates the distinct
path `["a", "b"]`, whose identifier collides with `a_b`: with the failing
entry present that leaf rebuilds to `"abc"`, while with the entry absent (the
field never having failed) it rebuilds to its original `"x"` — so rebuilt
values at other paths are not the same as they would have been had the field
not failed. -/
theorem c6_counterexample :
    getPath (build_updated_settings trivYaml abcStore contaminationTree []).1 ["a_b"] =
      some (vInt 5) ∧
    (build_updated_settings trivYaml abcStore contaminationTree []).2.countP
      (fun d => d.path == ["a_b"]) = 1 ∧
    getPath (build_updated_settings trivYaml abcStore contaminationTree []).1 ["a", "b"] =
      some (vStr "abc") ∧
    getPath (build_updated_settings trivYaml (fun _ => none) contaminationTree []).1
      ["a", "b"] = some (vStr "x") ∧
    getPath (build_updated_settings trivYaml abcStore contaminationTree []).1 ["a", "b"] ≠
      getPath (build_updated_settings trivYaml (fun _ => none) contaminationTree []).1
        ["a", "b"] := by
  refine ⟨by decide, by decide, by decide, by decide, by decide⟩

/-- C6 amended: for every tree with an int leaf holding the edited text
`"abc"`, the rebuild keeps the original int at that path, records exactly
one diagnostic for that path, returns a tree of the full original shape (it
never aborts), and every other non-mapping path whose identifier differs
from the failing field's identifier rebuilds exactly as it would have had
the failing entry been absent.  Isolation by path alone is false (see the
counterexample): identifier collisions let one field's edit reach another
path, so isolation holds per identifier. -/
theorem c6_graceful_coercion_failure (yaml : YamlLib) (store : String → Option RawVal)
    (es : Entries) (q : List String) (n : Int)
    (hwf : wfKeys (vDict es) = true)
    (hget : getPath (vDict es) q = some (vInt n))
    (hstore : store (joinPath q) = some (RawVal.rStr "abc")) :
    getPath (build_updated_settings yaml store (vDict es) []).1 q = some (vInt n) ∧
    (build_updated_settings yaml store (vDict es) []).2.countP
      (fun d => d.path == q) = 1 ∧
    sameMappingShape (build_updated_settings yaml store (vDict es) []).1 (vDict es) = true ∧
    (∀ (q2 : List String) (w : Value), getPath (vDict es) q2 = some w →
      w.isDictV = false → joinPath q2 ≠ joinPath q →
      getPath (build_updated_settings yaml store (vDict es) []).1 q2 =
        getPath (build_updated_settings yaml
          (fun id => if id = joinPath q then none else store id) (vDict es) []).1 q2) := by
  refine ⟨?_, ?_, ?_, ?_⟩
  · rw [getPath_build_top yaml store es q _ hget (by simp [Value.isDictV])]
    simp [hstore, coerce_int_abc]
  · rw [List.countP_eq_length_filter,
      diag_filter_top yaml store es q _ hwf hget (by simp [Value.isDictV])]
    simp [hstore, coerce_int_abc]
  · rw [build_top]
    simpa [sameMappingShape] using build_entries_shape yaml store es []
  · intro q2 w hget2 hw hne
    rw [getPath_build_top yaml store es q2 w hget2 hw,
      getPath_build_top yaml _ es q2 w hget2 hw]
    have heq : (if joinPath q2 = joinPath q then none else store (joinPath q2)) =
        store (joinPath q2) := by simp [hne]
    rw [heq]

/-- Witness for the amended C6 theorem: `{"n": 7, "s": "ok"}` with `"abc"`
stored for `n`; the int leaf keeps `7` with one diagnostic and the string
leaf `s` is unaffected by removing the failing entry. -/
theorem c6_graceful_coercion_failure_witness :
    wfKeys (vDict (Entries.ofList [("n", vInt 7), ("s", vStr "ok")])) = true ∧
    getPath (vDict (Entries.ofList [("n", vInt 7), ("s", vStr "ok")])) ["n"] =
      some (vInt 7) ∧
    ((fun id => if id = "n" then some (RawVal.rStr "abc") else none) (joinPath ["n"]) =
      some (RawVal.rStr "abc")) ∧
    (getPath (build_updated_settings trivYaml
        (fun id => if id = "n" then some (RawVal.rStr "abc") else none)
        (vDict (Entries.ofList [("n", vInt 7), ("s", vStr "ok")])) []).1 ["n"] =
      some (vInt 7) ∧
    (build_updated_settings trivYaml
        (fun id => if id = "n" then some (RawVal.rStr "abc") else none)
        (vDict (Entries.ofList [("n", vInt 7), ("s", vStr "ok")])) []).2.countP
      (fun d => d.path == ["n"]) = 1 ∧
    sameMappingShape (build_updated_settings trivYaml
        (fun id => if id = "n" then some (RawVal.rStr "abc") else none)
        (vDict (Entries.ofList [("n", vInt 7), ("s", vStr "ok")])) []).1
      (vDict (Entries.ofList [("n", vInt 7), ("s", vStr "ok")])) = true ∧
    (∀ (q2 : List String) (w : Value),
      getPath (vDict (Entries.ofList [("n", vInt 7), ("s", vStr "ok")])) q2 = some w →
      w.isDictV = false → joinPath q2 ≠ joinPath ["n"] →
      getPath (build_updated_settings trivYaml
          (fun id => if id = "n" then some (RawVal.rStr "abc") else none)
          (vDict (Entries.ofList [("n", vInt 7), ("s", vStr "ok")])) []).1 q2 =
        getPath (build_updated_settings trivYaml
          (fun id => if id = joinPath ["n"] then none
            else (fun id2 => if id2 = "n" then some (RawVal.rStr "abc") else none) id)
          (vDict (Entries.ofList [("n", vInt 7), ("s", vStr "ok")])) []).1 q2)) :=
  ⟨by decide, by decide, by decide,
   c6_graceful_coercion_failure trivYaml
     (fun id => if id = "n" then some (RawVal.rStr "abc") else none)
     (Entries.ofList [("n", vInt 7), ("s", vStr "ok")]) ["n"] 7
     (by decide) (by decide) (by decide)⟩

theorem map_filter_strip_digit {α : Type} (lines : List String) (g : String → α) :
    (((lines.map pyStrip).filter pyIsDigit).map g) =
      lines.filterMap (fun l =>
        if pyIsDigit (pyStrip l) then some (g (pyStrip l)) else none) := by
  induction lines with
  | nil => rfl
  | cons l ls ih => by_cases h : pyIsDigit (pyStrip l) = true <;> simp [h, ih]

theorem map_filter_strip_diag (lines : List String) (q : List String) :
    (((lines.map pyStrip).filter (fun l => l != "" && !pyIsDigit l)).map
      (fun l => (⟨q, l⟩ : Diag))) =
      (lines.filter (fun line => pyStrip line != "" && !pyIsDigit (pyStrip line))).map
        (fun line => (⟨q, pyStrip line⟩ : Diag)) := by
  induction lines with
  | nil => rfl
  | cons l ls ih =>
    by_cases h : (pyStrip l != "" && !pyIsDigit (pyStrip l)) = true <;>
      simp [h, ih]

/-- C7: a `serial_numbers` list leaf rebuilds from the edited text by
splitting it on line breaks, keeping each line whose trim is a nonempty
all-digit string as its int value, and dropping every other nonempty line
while recording exactly one diagnostic for it (carrying the offending
trimmed line). -/
theorem c7_serial_numbers_coercion (yaml : YamlLib) (store : String → Option RawVal)
    (es : Entries) (q : List String) (items : ValList) (txt : String)
    (hwf : wfKeys (vDict es) = true)
    (hlast : q.getLastD "" = "serial_numbers")
    (hget : getPath (vDict es) q = some (vListV items))
    (hstore : store (joinPath q) = some (RawVal.rStr txt)) :
    getPath (build_updated_settings yaml store (vDict es) []).1 q =
      some (vListV (ValList.ofList
        ((pySplitlines txt).filterMap (fun line =>
          if pyIsDigit (pyStrip line)
          then some (vInt (digitsVal (pyStrip line).data : Int)) else none)))) ∧
    (build_updated_settings yaml store (vDict es) []).2.filter
        (fun d => d.path == q) =
      ((pySplitlines txt).filter
        (fun line => pyStrip line != "" && !pyIsDigit (pyStrip line))).map
        (fun line => ⟨q, pyStrip line⟩) := by
  constructor
  · rw [getPath_build_top yaml store es q _ hget (by simp [Value.isDictV])]
    rw [hstore, hlast]
    simp only [coerce_serial]
    rw [map_filter_strip_digit]
  · rw [diag_filter_top yaml store es q _ hwf hget (by simp [Value.isDictV])]
    rw [hstore, hlast]
    simp only [coerce_serial]
    rw [map_filter_strip_diag]

/-- The tree `{"serial_numbers": [1, 2]}` of the C7 scenario. -/
def serialTree : Value :=
  vDict (Entries.ofList [("serial_numbers", vListV (ValList.ofList [vInt 1, vInt 2]))])

/-- The edit store holding the text `"3\nxx\n4"` under `serial_numbers`. -/
def serialStore : String → Option RawVal := fun id =>
  if id = "serial_numbers" then some (RawVal.rStr "3\nxx\n4") else none

/-- Witness for C7, which is also the claim's concrete scenario:
`{"serial_numbers": [1, 2]}` edited to `"3\nxx\n4"` rebuilds to `[3, 4]`
with exactly one diagnostic, for the line `"xx"`. -/
theorem c7_serial_numbers_coercion_witness :
    wfKeys serialTree = true ∧
    ((["serial_numbers"] : List String).getLastD "" = "serial_numbers") ∧
    getPath serialTree ["serial_numbers"] =
      some (vListV (ValList.ofList [vInt 1, vInt 2])) ∧
    serialStore (joinPath ["serial_numbers"]) = some (RawVal.rStr "3\nxx\n4") ∧
    (getPath (build_updated_settings trivYaml serialStore serialTree []).1
        ["serial_numbers"] =
      some (vListV (ValList.ofList
        ((pySplitlines "3\nxx\n4").filterMap (fun line =>
          if pyIsDigit (pyStrip line)
          then some (vInt (digitsVal (pyStrip line).data : Int)) else none)))) ∧
    (build_updated_settings trivYaml serialStore serialTree []).2.filter
        (fun d => d.path == ["serial_numbers"]) =
      ((pySplitlines "3\nxx\n4").filter
        (fun line => pyStrip line != "" && !pyIsDigit (pyStrip line))).map
        (fun line => ⟨["serial_numbers"], pyStrip line⟩)) ∧
    (build_updated_settings trivYaml serialStore serialTree []).1 =
      vDict (Entries.ofList
        [("serial_numbers", vListV (ValList.ofList [vInt 3, vInt 4]))]) ∧
    (build_updated_settings trivYaml serialStore serialTree []).2 =
      [⟨["serial_numbers"], "xx"⟩] :=
  ⟨by decide, by decide, by decide, by decide,
   c7_serial_numbers_coercion trivYaml serialStore
     (Entries.ofList [("serial_numbers", vListV (ValList.ofList [vInt 1, vInt 2]))])
     ["serial_numbers"] (ValList.ofList [vInt 1, vInt 2]) "3\nxx\n4"
     (by decide) (by decide) (by decide) (by decide),
   by decide, by decide⟩

/-- C8 counterexample: when the YAML parse of the edited `session_types`
text succeeds but yields a non-list (here the scalar `5`), the rebuild keeps
the original list but emits no diagnostic at all — source line 190 silently
falls back, so the claimed diagnostic does not exist. -/
theorem c8_counterexample :
    (YamlLib.mk (fun _ => "d") (fun s => if s = "5" then some (vInt 5) else none)).load
        "5" = some (vInt 5) ∧
    build_updated_settings
        (YamlLib.mk (fun _ => "d") (fun s => if s = "5" then some (vInt 5) else none))
        (fun id => if id = "session_types" then some (RawVal.rStr "5") else none)
        (vDict (Entries.ofList
          [("session_types", vListV (ValList.ofList [vDict Entries.nil]))])) [] =
      (vDict (Entries.ofList
          [("session_types", vListV (ValList.ofList [vDict Entries.nil]))]), []) := by
  refine ⟨by decide, by decide⟩

/-- C8 amended: for a `session_types` list leaf, when the YAML parse of the
edited text raises, one diagnostic is emitted and the original list is kept;
when the parse succeeds with a non-list result, the original list is kept
but no diagnostic is emitted; when it yields a list, that list is the
rebuilt value. -/
theorem c8_session_types_error_handling (yaml : YamlLib) (store : String → Option RawVal)
    (es : Entries) (q : List String) (items : ValList) (txt : String)
    (hwf : wfKeys (vDict es) = true)
    (hlast : q.getLastD "" = "session_types")
    (hget : getPath (vDict es) q = some (vListV items))
    (hstore : store (joinPath q) = some (RawVal.rStr txt)) :
    (yaml.load txt = none →
      getPath (build_updated_settings yaml store (vDict es) []).1 q =
        some (vListV items) ∧
      (build_updated_settings yaml store (vDict es) []).2.countP
        (fun d => d.path == q) = 1) ∧
    (∀ w, yaml.load txt = some w → typeOf w ≠ VType.tList →
      getPath (build_updated_settings yaml store (vDict es) []).1 q =
        some (vListV items) ∧
      (build_updated_settings yaml store (vDict es) []).2.countP
        (fun d => d.path == q) = 0) ∧
    (∀ parsed, yaml.load txt = some (vListV parsed) →
      getPath (build_updated_settings yaml store (vDict es) []).1 q =
        some (vListV parsed)) := by
  have hvp := getPath_build_top yaml store es q _ hget (by (simp [Value.isDictV]) :
    (vListV items).isDictV = false)
  have hdp := diag_filter_top yaml store es q _ hwf hget (by (simp [Value.isDictV]) :
    (vListV items).isDictV = false)
  rw [hstore, hlast] at hvp hdp
  simp only [coerce_session_types] at hvp hdp
  refine ⟨?_, ?_, ?_⟩
  · intro hload
    rw [hload] at hvp hdp
    exact ⟨by simpa using hvp, by rw [List.countP_eq_length_filter, hdp]; simp⟩
  · intro w hload hwt
    rw [hload] at hvp hdp
    cases w with
    | vListV l2 => exact absurd rfl hwt
    | vBool b =>
      exact ⟨by simpa using hvp, by rw [List.countP_eq_length_filter, hdp]; simp⟩
    | vInt n =>
      exact ⟨by simpa using hvp, by rw [List.countP_eq_length_filter, hdp]; simp⟩
    | vFloat q2 =>
      exact ⟨by simpa using hvp, by rw [List.countP_eq_length_filter, hdp]; simp⟩
    | vStr s =>
      exact ⟨by simpa using hvp, by rw [List.countP_eq_length_filter, hdp]; simp⟩
    | vNull =>
      exact ⟨by simpa using hvp, by rw [List.countP_eq_length_filter, hdp]; simp⟩
    | vDict es2 =>
      exact ⟨by simpa using hvp, by rw [List.countP_eq_length_filter, hdp]; simp⟩
  · intro parsed hload
    rw [hload] at hvp
    simpa using hvp

/-- The tree `{"session_types": [{}]}`. -/
def sessionTree : Value :=
  vDict (Entries.ofList [("session_types", vListV (ValList.ofList [vDict Entries.nil]))])

/-- Witness for the amended C8 theorem: with a YAML library whose parse
always raises, the edit `"zzz"` leaves `{"session_types": [{}]}` unchanged
and records one diagnostic. -/
theorem c8_session_types_error_handling_witness :
    wfKeys sessionTree = true ∧
    ((["session_types"] : List String).getLastD "" = "session_types") ∧
    getPath sessionTree ["session_types"] =
      some (vListV (ValList.ofList [vDict Entries.nil])) ∧
    ((fun id => if id = "session_types" then some (RawVal.rStr "zzz") else none)
      (joinPath ["session_types"]) = some (RawVal.rStr "zzz")) ∧
    trivYaml.load "zzz" = none ∧
    (getPath (build_updated_settings trivYaml
        (fun id => if id = "session_types" then some (RawVal.rStr "zzz") else none)
        sessionTree []).1 ["session_types"] =
      some (vListV (ValList.ofList [vDict Entries.nil])) ∧
    (build_updated_settings trivYaml
        (fun id => if id = "session_types" then some (RawVal.rStr "zzz") else none)
        sessionTree []).2.countP (fun d => d.path == ["session_types"]) = 1) :=
  ⟨by decide, by decide, by decide, by decide, by decide,
   (c8_session_types_error_handling trivYaml
     (fun id => if id = "session_types" then some (RawVal.rStr "zzz") else none)
     (Entries.ofList [("session_types", vListV (ValList.ofList [vDict Entries.nil]))])
     ["session_types"] (ValList.ofList [vDict Entries.nil]) "zzz"
     (by decide) (by decide) (by decide) (by decide)).1 rfl⟩

/- ---------------------------------------------------------------------
Claim C5: renderer / rebuild traversal symmetry.
--------------------------------------------------------------------- -/

theorem render_ids_eq_build_ids (yaml : YamlLib) :
    ∀ (es : Entries) (path : List String),
    (render_children yaml path es).map Prod.fst = build_lookup_ids es path
  | Entries.nil, _ => rfl
  | Entries.cons k v rest, path => by
    have ih2 := render_ids_eq_build_ids yaml rest path
    cases v
    case vDict es2 =>
      have ih1 := render_ids_eq_build_ids yaml es2 (path ++ [k])
      simp [render_children, render_setting, build_lookup_ids, ih1, ih2]
    all_goals simp [render_children, render_setting, build_lookup_ids, ih2]

theorem newsletters_block (yaml : YamlLib) (k : String) :
    ∀ (nls : Entries),
    (Entries.toList nls).flatMap
      (fun kv => (render_setting yaml [k, kv.1] kv.2).map Prod.fst) =
      (render_children yaml [k] nls).map Prod.fst
  | Entries.nil => rfl
  | Entries.cons k1 v1 rest => by
    have ih := newsletters_block yaml k rest
    simp only [Entries.toList, List.flatMap_cons, render_children, List.map_append, ih]
    rfl

theorem page_block_eq (yaml : YamlLib) (k : String) (v : Value) :
    page_block yaml k v = (render_setting yaml [k] v).map Prod.fst := by
  cases v with
  | vDict nls =>
    simp only [page_block]
    split
    · exact newsletters_block yaml k nls
    · rfl
  | vBool b => rfl
  | vInt n => rfl
  | vFloat q => rfl
  | vStr s => rfl
  | vListV items => rfl
  | vNull => rfl

theorem nodup_of_nodupB : ∀ {l : List String}, nodupB l = true → l.Nodup
  | [], _ => List.nodup_nil
  | k :: rest, h => by
    have hs : rest.contains k = false ∧ nodupB rest = true := by
      simpa [nodupB] using h
    refine List.nodup_cons.mpr ⟨?_, nodup_of_nodupB hs.2⟩
    intro hmem
    have : rest.contains k = true :=
      List.contains_iff_exists_mem_beq.mpr ⟨k, hmem, by simp⟩
    rw [this] at hs
    exact absurd hs.1 (by simp)

theorem lookupE_isSome_iff (k : String) : ∀ (es : Entries),
    (Entries.lookupE k es).isSome = true ↔ k ∈ Entries.keysOf es
  | Entries.nil => by simp [Entries.lookupE, Entries.keysOf]
  | Entries.cons k2 v rest => by
    by_cases hk : k = k2
    · subst hk; simp [Entries.lookupE, Entries.keysOf]
    · simp [Entries.lookupE, Entries.keysOf, hk, lookupE_isSome_iff k rest]

theorem flatMap_filter_toList {α : Type} (F : String → Value → List α) (p : String → Bool) :
    ∀ (es : Entries), nodupB (Entries.keysOf es) = true →
    ((Entries.toList es).filter (fun kv => p kv.1)).flatMap (fun kv => F kv.1 kv.2) =
      ((Entries.keysOf es).filter p).flatMap
        (fun k => match Entries.lookupE k es with | some v => F k v | none => [])
  | Entries.nil, _ => rfl
  | Entries.cons k v rest, hnd => by
    have hnds : (Entries.keysOf rest).contains k = false ∧
        nodupB (Entries.keysOf rest) = true := by
      simpa [nodupB, Entries.keysOf] using hnd
    have ih := flatMap_filter_toList F p rest hnds.2
    have hcongr : ((Entries.keysOf rest).filter p).flatMap
        (fun k2 => match Entries.lookupE k2 rest with | some v2 => F k2 v2 | none => []) =
        ((Entries.keysOf rest).filter p).flatMap
        (fun k2 => match Entries.lookupE k2 (Entries.cons k v rest) with
          | some v2 => F k2 v2 | none => []) := by
      refine List.flatMap_congr ?_
      intro k2 hk2
      have hk2m : k2 ∈ Entries.keysOf rest := (List.mem_filter.mp hk2).1
      have hne : ¬k2 = k := by
        intro he
        subst he
        have : (Entries.keysOf rest).contains k2 = true :=
          List.contains_iff_exists_mem_beq.mpr ⟨k2, hk2m, by simp⟩
        rw [this] at hnds
        exact absurd hnds.1 (by simp)
      simp [Entries.lookupE, hne]
    by_cases hp : p k = true
    · have e1 : List.filter (fun kv => p kv.1) (Entries.toList (Entries.cons k v rest)) =
          (k, v) :: List.filter (fun kv => p kv.1) (Entries.toList rest) := by
        simp [Entries.toList, hp]
      have e2 : List.filter p (Entries.keysOf (Entries.cons k v rest)) =
          k :: List.filter p (Entries.keysOf rest) := by
        simp [Entries.keysOf, hp]
      rw [e1, e2, List.flatMap_cons, List.flatMap_cons, ih, hcongr]
      congr 1
      simp [Entries.lookupE]
    · have e1 : List.filter (fun kv => p kv.1) (Entries.toList (Entries.cons k v rest)) =
          List.filter (fun kv => p kv.1) (Entries.toList rest) := by
        simp [Entries.toList, hp]
      have e2 : List.filter p (Entries.keysOf (Entries.cons k v rest)) =
          List.filter p (Entries.keysOf rest) := by
        simp [Entries.keysOf, hp]
      rw [e1, e2, ih, hcongr]

theorem flatMap_toList_eq_keys {α : Type} (F : String → Value → List α)
    (es : Entries) (hnd : nodupB (Entries.keysOf es) = true) :
    (Entries.toList es).flatMap (fun kv => F kv.1 kv.2) =
      (Entries.keysOf es).flatMap
        (fun k => match Entries.lookupE k es with | some v => F k v | none => []) := by
  have h := flatMap_filter_toList F (fun _ => true) es hnd
  simpa using h

theorem build_ids_top (yaml : YamlLib) : ∀ (es : Entries),
    build_lookup_ids es [] =
      (Entries.toList es).flatMap
        (fun kv => (render_setting yaml [kv.1] kv.2).map Prod.fst)
  | Entries.nil => rfl
  | Entries.cons k v rest => by
    have ih := build_ids_top yaml rest
    cases v
    case vDict es2 =>
      have h1 := render_ids_eq_build_ids yaml es2 [k]
      simp only [build_lookup_ids, Entries.toList, List.flatMap_cons, ih,
        List.nil_append]
      rw [show (render_setting yaml [k] (vDict es2)).map Prod.fst =
        (render_children yaml [k] es2).map Prod.fst from rfl, h1]
    all_goals
      simp [build_lookup_ids, Entries.toList, render_setting, ih]

theorem page_keys_perm (es : Entries) (hnd : nodupB (Entries.keysOf es) = true) :
    (common_keys.filter (fun k => (Entries.lookupE k es).isSome) ++
      (Entries.keysOf es).filter (fun k => !common_keys.contains k)).Perm
      (Entries.keysOf es) := by
  have hkeysnd := nodup_of_nodupB hnd
  have hcn : common_keys.Nodup := by decide
  have hl : (common_keys.filter (fun k => (Entries.lookupE k es).isSome) ++
      (Entries.keysOf es).filter (fun k => !common_keys.contains k)).Nodup := by
    rw [List.nodup_append]
    refine ⟨hcn.filter _, hkeysnd.filter _, ?_⟩
    intro x hx1 hx2
    have hx1c : x ∈ common_keys := (List.mem_filter.mp hx1).1
    have hx2c : (!common_keys.contains x) = true := (List.mem_filter.mp hx2).2
    have : common_keys.contains x = true :=
      List.contains_iff_exists_mem_beq.mpr ⟨x, hx1c, by simp⟩
    rw [this] at hx2c
    exact absurd hx2c (by simp)
  rw [List.perm_ext_iff_of_nodup hl hkeysnd]
  intro a
  constructor
  · intro ha
    rcases List.mem_append.mp ha with h1 | h2
    · exact (lookupE_isSome_iff a es).mp (List.mem_filter.mp h1).2
    · exact (List.mem_filter.mp h2).1
  · intro ha
    by_cases hc : common_keys.contains a = true
    · refine List.mem_append.mpr (Or.inl (List.mem_filter.mpr ⟨?_, ?_⟩))
      · rcases List.contains_iff_exists_mem_beq.mp hc with ⟨a', ha', hbeq⟩
        have : a = a' := by simpa using hbeq
        rw [this]; exact ha'
      · exact (lookupE_isSome_iff a es).mpr ha
    · refine List.mem_append.mpr (Or.inr (List.mem_filter.mpr ⟨ha, by simpa using hc⟩))

theorem perm_flatMap {α β : Type} (G : α → List β) {l1 l2 : List α} (h : l1.Perm l2) :
    (l1.flatMap G).Perm (l2.flatMap G) := by
  rw [List.flatMap_def, List.flatMap_def]
  exact (h.map G).flatten

/-- The two-key mapping `{"engagement": 1, "global": 2}` whose insertion
order differs from the page's fixed `common_keys` order. -/
def orderTree : Entries := Entries.ofList [("engagement", vInt 1), ("global", vInt 2)]

/-- C5 counterexample: the page renders the known section keys in the fixed
`common_keys` order (`global` before `engagement`), while
`build_updated_settings` walks the mapping in insertion order (`engagement`
before `global`): for `{"engagement": 1, "global": 2}` the renderer's
identifier sequence differs from the sequence the rebuild re-derives, so
they are not equal for every tree. -/
theorem c5_counterexample :
    page_render_ids trivYaml orderTree = ["global", "engagement"] ∧
    build_lookup_ids orderTree [] = ["engagement", "global"] ∧
    page_render_ids trivYaml orderTree ≠ build_lookup_ids orderTree [] := by
  refine ⟨by decide, by decide, by decide⟩

/-- C5 amended: below the top level, `render_setting` and
`build_updated_settings` traverse mapping entries in identical insertion
order and derive identical identifier sequences; at the top level the page
renders the present `common_keys` first in a fixed order (with `newsletters`
special-cased per entry) and the remaining keys in insertion order, while
the rebuild uses pure insertion order — so for every tree with distinct
top-level keys the renderer's identifier sequence is a permutation of the
sequence the rebuild re-derives, though not always the same sequence. -/
theorem c5_traversal_symmetry (yaml : YamlLib) (es : Entries)
    (hnd : nodupB (Entries.keysOf es) = true) :
    (page_render_ids yaml es).Perm (build_lookup_ids es []) ∧
    (∀ (es2 : Entries) (path : List String),
      (render_children yaml path es2).map Prod.fst = build_lookup_ids es2 path) := by
  refine ⟨?_, fun es2 path => render_ids_eq_build_ids yaml es2 path⟩
  have h1 : page_render_ids yaml es =
      (common_keys.filter (fun k => (Entries.lookupE k es).isSome)).flatMap
        (fun k => match Entries.lookupE k es with
          | some v => (render_setting yaml [k] v).map Prod.fst
          | none => []) ++
      ((Entries.keysOf es).filter (fun k => !common_keys.contains k)).flatMap
        (fun k => match Entries.lookupE k es with
          | some v => (render_setting yaml [k] v).map Prod.fst
          | none => []) := by
    simp only [page_render_ids]
    congr 1
    · refine List.flatMap_congr ?_
      intro k _
      rcases hl : Entries.lookupE k es with _ | v
      · rfl
      · exact page_block_eq yaml k v
    · exact flatMap_filter_toList
        (fun k v => (render_setting yaml [k] v).map Prod.fst)
        (fun k => !common_keys.contains k) es hnd
  have h2 : build_lookup_ids es [] =
      (Entries.keysOf es).flatMap
        (fun k => match Entries.lookupE k es with
          | some v => (render_setting yaml [k] v).map Prod.fst
          | none => []) := by
    rw [build_ids_top yaml es]
    exact flatMap_toList_eq_keys
      (fun k v => (render_setting yaml [k] v).map Prod.fst) es hnd
  rw [h1, h2, ← List.flatMap_append]
  exact perm_flatMap _ (page_keys_perm es hnd)

/-- Witness for the amended C5 theorem at `{"engagement": 1, "global": 2}`:
the page's identifier sequence is a permutation of the rebuild's. -/
theorem c5_traversal_symmetry_witness :
    nodupB (Entries.keysOf orderTree) = true ∧
    ((page_render_ids trivYaml orderTree).Perm (build_lookup_ids orderTree []) ∧
    (∀ (es2 : Entries) (path : List String),
      (render_children trivYaml path es2).map Prod.fst = build_lookup_ids es2 path)) :=
  ⟨by decide, c5_traversal_symmetry trivYaml orderTree (by decide)⟩

/- ---------------------------------------------------------------------
Claim C2: round-trip stability.  First, the string and decimal facts the
lossless leaves rely on.
--------------------------------------------------------------------- -/

theorem digitChar_isDigit {n : Nat} (h : n < 10) : (digitChar n).isDigit = true := by
  interval_cases n <;> decide

theorem digitVal_digitChar {n : Nat} (h : n < 10) : digitVal (digitChar n) = n := by
  interval_cases n <;> decide

theorem digitsVal_append_one (ds : List Char) (c : Char) :
    digitsVal (ds ++ [c]) = 10 * digitsVal ds + digitVal c := by
  simp [digitsVal, List.foldl_append]

theorem natDigitsAux_spec : ∀ (fuel n : Nat), n < fuel →
    natDigitsAux fuel n ≠ [] ∧ (∀ c ∈ natDigitsAux fuel n, c.isDigit = true) ∧
    digitsVal (natDigitsAux fuel n) = n
  | 0, n, h => absurd h (by omega)
  | fuel + 1, n, h => by
    by_cases h10 : n < 10
    · refine ⟨by simp [natDigitsAux, h10], ?_, ?_⟩
      · intro c hc
        simp only [natDigitsAux, if_pos h10, List.mem_singleton] at hc
        rw [hc]
        exact digitChar_isDigit h10
      · simp [natDigitsAux, h10, digitsVal, digitVal_digitChar h10]
    · have hdiv : n / 10 < fuel := by
        have := Nat.div_lt_self (by omega : 0 < n) (by omega : 1 < 10)
        omega
      have ih := natDigitsAux_spec fuel (n / 10) hdiv
      refine ⟨by simp [natDigitsAux, h10], ?_, ?_⟩
      · intro c hc
        simp only [natDigitsAux, if_neg h10, List.mem_append, List.mem_singleton] at hc
        rcases hc with hc | hc
        · exact ih.2.1 c hc
        · rw [hc]; exact digitChar_isDigit (by omega)
      · simp only [natDigitsAux, if_neg h10]
        rw [digitsVal_append_one, ih.2.2, digitVal_digitChar (by omega)]
        omega

theorem natDigits_ne_nil (n : Nat) : natDigits n ≠ [] :=
  (natDigitsAux_spec (n + 1) n (by omega)).1

theorem natDigits_all_digit (n : Nat) : ∀ c ∈ natDigits n, c.isDigit = true :=
  (natDigitsAux_spec (n + 1) n (by omega)).2.1

theorem digitsVal_natDigits (n : Nat) : digitsVal (natDigits n) = n :=
  (natDigitsAux_spec (n + 1) n (by omega)).2.2

theorem isDigit_not_space {c : Char} (h : c.isDigit = true) : pyIsSpace c = false := by
  by_contra hs
  have hs2 : pyIsSpace c = true := by simpa using hs
  simp only [pyIsSpace, Bool.or_eq_true, decide_eq_true_eq] at hs2
  rcases hs2 with ((((rfl | rfl) | rfl) | rfl) | rfl) | rfl <;> simp_all

theorem isDigit_not_break {c : Char} (h : c.isDigit = true) :
    c ≠ '\n' ∧ c ≠ '\r' := by
  constructor <;> rintro rfl <;> simp_all

theorem dropWhile_eq_self_of_all {p : Char → Bool} :
    ∀ cs : List Char, (∀ c ∈ cs, p c = false) → List.dropWhile p cs = cs
  | [], _ => rfl
  | c :: cs, h => by simp [List.dropWhile, h c (by simp)]

theorem pyStripChars_id (cs : List Char) (h : ∀ c ∈ cs, pyIsSpace c = false) :
    pyStripChars cs = cs := by
  unfold pyStripChars
  rw [dropWhile_eq_self_of_all cs h,
    dropWhile_eq_self_of_all cs.reverse (fun c hc => h c (List.mem_reverse.mp hc)),
    List.reverse_reverse]

theorem string_mk_data : ∀ s : String, String.mk s.data = s
  | ⟨_⟩ => rfl

theorem pyStrip_eq_self (s : String) (h : ∀ c ∈ s.data, pyIsSpace c = false) :
    pyStrip s = s := by
  unfold pyStrip
  rw [pyStripChars_id s.data h, string_mk_data]

theorem splitlines_cons_generic (c : Char) (cs : List Char)
    (hn : c ≠ '\n') (hr : c ≠ '\r') :
    pySplitlinesChars (c :: cs) =
      match pySplitlinesChars cs with
      | [] => [[c]]
      | l :: ls => (c :: l) :: ls := by
  rw [pySplitlinesChars.eq_def]
  split <;> simp_all

theorem splitlines_single : ∀ cs : List Char, cs ≠ [] →
    (∀ c ∈ cs, c ≠ '\n' ∧ c ≠ '\r') → pySplitlinesChars cs = [cs]
  | [], h, _ => absurd rfl h
  | c :: cs, _, h => by
    rw [splitlines_cons_generic c cs (h c (by simp)).1 (h c (by simp)).2]
    rcases hcs : cs with _ | ⟨c2, cs2⟩
    · rfl
    · rw [← hcs, splitlines_single cs (by simp [hcs]) (fun x hx => h x (by simp [hx]))]

theorem splitlines_append : ∀ (p t : List Char), (∀ c ∈ p, c ≠ '\n' ∧ c ≠ '\r') →
    pySplitlinesChars (p ++ '\n' :: t) = p :: pySplitlinesChars t
  | [], t, _ => by simp [pySplitlinesChars]
  | c :: p, t, h => by
    rw [List.cons_append,
      splitlines_cons_generic c (p ++ '\n' :: t) (h c (by simp)).1 (h c (by simp)).2,
      splitlines_append p t (fun x hx => h x (by simp [hx]))]

theorem ne_empty_data {s : String} (h : s ≠ "") : s.data ≠ [] := by
  intro hd
  exact h (by rw [← string_mk_data s, hd])

theorem noLineBreak_chars {s : String} (h : noLineBreak s = true) :
    ∀ c ∈ s.data, c ≠ '\n' ∧ c ≠ '\r' := by
  intro c hc
  simp only [noLineBreak, List.all_eq_true] at h
  have h2 := h c hc
  simp only [Bool.and_eq_true, bne_iff_ne, ne_eq] at h2
  exact ⟨h2.1, h2.2⟩

theorem pyJoinNL_data : ∀ (s : String) (s2 : String) (rest : List String),
    (pyJoinNL (s :: s2 :: rest)).data = s.data ++ '\n' :: (pyJoinNL (s2 :: rest)).data := by
  intro s s2 rest
  show (s ++ "\n" ++ pyJoinNL (s2 :: rest)).data = _
  simp

theorem splitlines_joinNL : ∀ ss : List String,
    (∀ s ∈ ss, s ≠ "" ∧ noLineBreak s = true) → pySplitlines (pyJoinNL ss) = ss
  | [], _ => rfl
  | [s], h => by
    have hs := h s (by simp)
    unfold pySplitlines
    show (pySplitlinesChars s.data).map String.mk = [s]
    rw [splitlines_single s.data (ne_empty_data hs.1) (noLineBreak_chars hs.2)]
    simp [string_mk_data]
  | s :: s2 :: rest, h => by
    have hs := h s (by simp)
    have ih := splitlines_joinNL (s2 :: rest) (fun x hx => h x (by simp [hx]))
    unfold pySplitlines at ih ⊢
    rw [pyJoinNL_data s s2 rest,
      splitlines_append s.data _ (noLineBreak_chars hs.2)]
    simp only [List.map_cons, string_mk_data]
    rw [ih]

theorem mem_of_containsB {l : List String} {a : String} (h : l.contains a = true) :
    a ∈ l := by
  rcases List.contains_iff_exists_mem_beq.mp h with ⟨a', ha', hb⟩
  rwa [show a = a' from by simpa using hb]

theorem containsB_of_mem {l : List String} {a : String} (h : a ∈ l) :
    l.contains a = true :=
  List.contains_iff_exists_mem_beq.mpr ⟨a, h, by simp⟩

theorem map_id_of_mem {α : Type} {l : List α} {f : α → α} (h : ∀ x ∈ l, f x = x) :
    l.map f = l := by
  rw [show l.map f = l.map id from List.map_congr_left h, List.map_id]

theorem textarea_items_spec : ∀ (items : ValList),
    ValList.allB (fun v => match v with
      | vStr s => pyStrip s == s && s != "" && noLineBreak s
      | _ => false) items = true →
    (∀ s ∈ ValList.mapToList pyStrOfValue items,
      s ≠ "" ∧ noLineBreak s = true ∧ pyStrip s = s) ∧
    ValList.ofList ((ValList.mapToList pyStrOfValue items).map vStr) = items
  | ValList.nil, _ => ⟨by simp [ValList.mapToList], rfl⟩
  | ValList.cons v rest, h => by
    cases v with
    | vStr s =>
      have h2 : ((pyStrip s == s && s != "" && noLineBreak s) &&
          ValList.allB (fun v => match v with
            | vStr s => pyStrip s == s && s != "" && noLineBreak s
            | _ => false) rest) = true := h
      have hv := (Bool.and_eq_true_iff.mp h2).1
      have hrest := (Bool.and_eq_true_iff.mp h2).2
      have ih := textarea_items_spec rest hrest
      simp only [Bool.and_eq_true, beq_iff_eq, bne_iff_ne, ne_eq] at hv
      refine ⟨?_, ?_⟩
      · intro x hx
        rcases List.mem_cons.mp (by simpa [ValList.mapToList, pyStrOfValue] using hx)
          with rfl | hx2
        · exact ⟨hv.1.2, hv.2, hv.1.1⟩
        · exact ih.1 x hx2
      · simp only [ValList.mapToList, pyStrOfValue, List.map_cons, ValList.ofList]
        rw [ih.2]
    | vBool b => exact absurd (show (false : Bool) = true from
        (Bool.and_eq_true_iff.mp h).1) (by simp)
    | vInt n => exact absurd (show (false : Bool) = true from
        (Bool.and_eq_true_iff.mp h).1) (by simp)
    | vFloat q => exact absurd (show (false : Bool) = true from
        (Bool.and_eq_true_iff.mp h).1) (by simp)
    | vListV l2 => exact absurd (show (false : Bool) = true from
        (Bool.and_eq_true_iff.mp h).1) (by simp)
    | vNull => exact absurd (show (false : Bool) = true from
        (Bool.and_eq_true_iff.mp h).1) (by simp)
    | vDict es2 => exact absurd (show (false : Bool) = true from
        (Bool.and_eq_true_iff.mp h).1) (by simp)

theorem textarea_roundtrip (items : ValList)
    (h : ValList.allB (fun v => match v with
      | vStr s => pyStrip s == s && s != "" && noLineBreak s
      | _ => false) items = true) :
    ValList.ofList
      ((((pySplitlines (pyJoinNL (ValList.mapToList pyStrOfValue items))).map
        pyStrip).filter (fun l => l != "")).map vStr) = items := by
  obtain ⟨hfacts, hre⟩ := textarea_items_spec items h
  rw [splitlines_joinNL (ValList.mapToList pyStrOfValue items)
    (fun s hs => ⟨(hfacts s hs).1, (hfacts s hs).2.1⟩)]
  rw [map_id_of_mem (fun s hs => (hfacts s hs).2.2)]
  rw [List.filter_eq_self.mpr (fun s hs => by simp [(hfacts s hs).1])]
  rw [hre]

theorem serial_items_spec : ∀ (items : ValList),
    ValList.allB (fun v => match v with
      | vInt n => decide (0 ≤ n)
      | _ => false) items = true →
    (∀ s ∈ ValList.mapToList pyStrOfValue items,
      s ≠ "" ∧ (∀ c ∈ s.data, c.isDigit = true)) ∧
    ValList.ofList ((ValList.mapToList pyStrOfValue items).map
      (fun l => vInt (digitsVal l.data : Int))) = items
  | ValList.nil, _ => ⟨by simp [ValList.mapToList], rfl⟩
  | ValList.cons v rest, h => by
    cases v with
    | vInt n =>
      have h2 : (decide (0 ≤ n) && ValList.allB (fun v => match v with
          | vInt n => decide (0 ≤ n)
          | _ => false) rest) = true := h
      have hv := (Bool.and_eq_true_iff.mp h2).1
      have hrest := (Bool.and_eq_true_iff.mp h2).2
      have ih := serial_items_spec rest hrest
      have hn : (0 : Int) ≤ n := by simpa using hv
      have hrepr : pyStrOfValue (vInt n) = String.mk (natDigits n.natAbs) := by
        simp [pyStrOfValue, pyReprOf, pyIntRepr, show ¬n < 0 by omega]
      refine ⟨?_, ?_⟩
      · intro x hx
        rcases List.mem_cons.mp (by simpa [ValList.mapToList, hrepr] using hx)
          with rfl | hx2
        · refine ⟨?_, natDigits_all_digit n.natAbs⟩
          intro he
          exact natDigits_ne_nil n.natAbs (by simpa using congrArg String.data he)
        · exact ih.1 x hx2
      · simp only [ValList.mapToList, hrepr, List.map_cons, ValList.ofList]
        rw [ih.2]
        have : digitsVal (String.mk (natDigits n.natAbs)).data = n.natAbs :=
          digitsVal_natDigits n.natAbs
        rw [this, Int.natAbs_of_nonneg hn]
    | vBool b => exact absurd (show (false : Bool) = true from
        (Bool.and_eq_true_iff.mp h).1) (by simp)
    | vStr s => exact absurd (show (false : Bool) = true from
        (Bool.and_eq_true_iff.mp h).1) (by simp)
    | vFloat q => exact absurd (show (false : Bool) = true from
        (Bool.and_eq_true_iff.mp h).1) (by simp)
    | vListV l2 => exact absurd (show (false : Bool) = true from
        (Bool.and_eq_true_iff.mp h).1) (by simp)
    | vNull => exact absurd (show (false : Bool) = true from
        (Bool.and_eq_true_iff.mp h).1) (by simp)
    | vDict es2 => exact absurd (show (false : Bool) = true from
        (Bool.and_eq_true_iff.mp h).1) (by simp)

theorem serial_roundtrip (items : ValList)
    (h : ValList.allB (fun v => match v with
      | vInt n => decide (0 ≤ n)
      | _ => false) items = true) :
    ValList.ofList
      ((((pySplitlines (pyJoinNL (ValList.mapToList pyStrOfValue items))).map
        pyStrip).filter pyIsDigit).map (fun l => vInt (digitsVal l.data : Int))) =
      items := by
  obtain ⟨hfacts, hre⟩ := serial_items_spec items h
  rw [splitlines_joinNL (ValList.mapToList pyStrOfValue items)
    (fun s hs => ⟨(hfacts s hs).1, by
      simp only [noLineBreak, List.all_eq_true]
      intro c hc
      have hd := (hfacts s hs).2 c hc
      have := isDigit_not_break hd
      simp [this.1, this.2]⟩)]
  rw [map_id_of_mem (fun s hs => pyStrip_eq_self s
    (fun c hc => isDigit_not_space ((hfacts s hs).2 c hc)))]
  rw [List.filter_eq_self.mpr (fun s hs => by
    simp only [pyIsDigit, Bool.and_eq_true, List.all_eq_true]
    exact ⟨by simpa using ne_empty_data (hfacts s hs).1, (hfacts s hs).2⟩)]
  rw [hre]

theorem coerce_displayed_roundtrip (yaml : YamlLib) (fullPath : List String) (k : String)
    (ov : Value) (hov : ov.isDictV = false) (hg : goodVal yaml k ov = true) :
    (coerce_widget_value yaml fullPath k ov (displayed_value yaml k ov)).1 = ov := by
  cases ov with
  | vBool b => rfl
  | vInt n => rfl
  | vFloat q => rfl
  | vDict es => simp [Value.isDictV] at hov
  | vNull =>
    by_cases hk : k = "group_id"
    · subst hk
      rfl
    · simp [coerce_widget_value, displayed_value, hk]
  | vStr s =>
    by_cases hm : k = "mode"
    · subst hm
      have hg2 : (s == "prod" || s == "dev") = true := by simpa [goodVal] using hg
      have hs : s = "prod" ∨ s = "dev" := by simpa using hg2
      have hdisp : displayed_value yaml "mode" (vStr s) = RawVal.rStr s := by
        rcases hs with rfl | rfl <;> rfl
      rw [hdisp]
      rfl
    · by_cases hl : k = "log_level"
      · subst hl
        have hg2 : logLevelOptions.contains s = true := by simpa [goodVal] using hg
        have hs5 : s = "debug" ∨ s = "info" ∨ s = "warning" ∨ s = "error" ∨
            s = "critical" := by
          simpa [logLevelOptions] using mem_of_containsB hg2
        have hdisp : displayed_value yaml "log_level" (vStr s) = RawVal.rStr s := by
          rcases hs5 with rfl | rfl | rfl | rfl | rfl <;> rfl
        rw [hdisp]
        rfl
      · by_cases hgid : k = "group_id"
        · subst hgid
          have hg2 : (pyStrip s == s && s != "") = true := by simpa [goodVal] using hg
          have hstrip : pyStrip s = s := by
            simpa using (Bool.and_eq_true_iff.mp hg2).1
          have hne : s ≠ "" := by simpa using (Bool.and_eq_true_iff.mp hg2).2
          have hdisp : displayed_value yaml "group_id" (vStr s) = RawVal.rStr s := rfl
          rw [hdisp]
          simp [coerce_widget_value, pyStr, hstrip, hne]
        · have hdisp : displayed_value yaml k (vStr s) = RawVal.rStr s := by
            simp [displayed_value, hm, hl]
          rw [hdisp]
          simp [coerce_widget_value, hgid, pyStr]
  | vListV items =>
    by_cases hser : k = "serial_numbers"
    · subst hser
      have hg2 : ValList.allB (fun v => match v with
          | vInt n => decide (0 ≤ n) | _ => false) items = true := by
        simpa [goodVal] using hg
      have hdisp : displayed_value yaml "serial_numbers" (vListV items) =
          RawVal.rStr (pyJoinNL (ValList.mapToList pyStrOfValue items)) := by
        simp [displayed_value,
          (by decide : ("serial_numbers" : String) ∈ renderTextareaKeys)]
      rw [hdisp, coerce_serial]
      exact congrArg vListV (serial_roundtrip items hg2)
    · by_cases htex : rebuildStringListKeys.contains k = true
      · have hkmem := mem_of_containsB htex
        have h4 : renderTextareaKeys.contains k = true ∧ k ≠ "group_id" ∧
            k ≠ "session_types" := by
          rcases (by simpa [rebuildStringListKeys] using hkmem :
              k = "sender_email" ∨ k = "ad_identifiers" ∨
              k = "regular_engagement_skip_senders") with rfl | rfl | rfl <;>
            exact ⟨by decide, by decide, by decide⟩
        have hkmem4 : k ∈ renderTextareaKeys := mem_of_containsB h4.1
        have hg2 : ValList.allB (fun v => match v with
            | vStr s => pyStrip s == s && s != "" && noLineBreak s
            | _ => false) items = true := by
          simpa [goodVal, hser, hkmem4] using hg
        have hdisp : displayed_value yaml k (vListV items) =
            RawVal.rStr (pyJoinNL (ValList.mapToList pyStrOfValue items)) := by
          simp [displayed_value, hkmem4]
        rw [hdisp]
        simp only [coerce_widget_value, if_neg h4.2.1, htex, if_pos]
        exact congrArg vListV (textarea_roundtrip items hg2)
      · by_cases hsess : k = "session_types"
        · subst hsess
          have hg2 : ValList.allB Value.isDictV items = true ∧
              (yaml.load (yaml.dump items) == some (vListV items)) = true := by
            have := hg
            simp only [goodVal, if_neg (by decide :
                ¬("session_types" : String) = "serial_numbers"),
              show renderTextareaKeys.contains "session_types" = false from by decide,
              Bool.if_false_left, if_pos rfl, Bool.and_eq_true] at this
            simpa using this
          have hload : yaml.load (yaml.dump items) = some (vListV items) := by
            simpa using hg2.2
          have hdisp : displayed_value yaml "session_types" (vListV items) =
              RawVal.rStr (yaml.dump items) := by
            simp [displayed_value,
              (by decide : ("session_types" : String) ∉ renderTextareaKeys), hg2.1]
          rw [hdisp, coerce_session_types, hload]
        · have hrt : renderTextareaKeys.contains k = false := by
            by_contra hc
            have hc2 : renderTextareaKeys.contains k = true := by simpa using hc
            rcases (by simpa [renderTextareaKeys] using mem_of_containsB hc2 :
                k = "sender_email" ∨ k = "ad_identifiers" ∨
                k = "regular_engagement_skip_senders" ∨ k = "serial_numbers") with
              rfl | rfl | rfl | rfl
            · exact htex (by decide)
            · exact htex (by decide)
            · exact htex (by decide)
            · exact hser rfl
          have hkg : k ≠ "group_id" := by
            have h2 := hg
            simp only [goodVal] at h2
            rw [if_neg hser, if_neg (show ¬renderTextareaKeys.contains k = true by
              rw [hrt]; simp), if_neg hsess] at h2
            simpa using h2
          have hmem3 : k ∉ rebuildStringListKeys := fun hm => htex (containsB_of_mem hm)
          simp [coerce_widget_value, hkg, hmem3, hser, hsess]

theorem getLastD_append_single : ∀ (path : List String) (k d : String),
    (path ++ [k]).getLastD d = k
  | [], _, _ => rfl
  | p :: path, k, d => by
    rw [List.cons_append, List.getLastD_cons]
    exact getLastD_append_single path k p

theorem exists_dict_of_isDict : ∀ {v : Value}, v.isDictV = true → ∃ es, v = vDict es := by
  intro v
  cases v <;> first
    | exact fun _ => ⟨_, rfl⟩
    | (intro h; simp [Value.isDictV] at h)

theorem build_roundtrip_leaf (yaml : YamlLib) (store : String → Option RawVal)
    (path : List String) (k : String) (ov : Value) (hnd : ov.isDictV = false)
    (hstore : store (joinPath (path ++ [k])) = some (displayed_value yaml k ov))
    (hgood : goodVal yaml k ov = true) :
    (build_leaf yaml store path k ov).1 = ov := by
  simp only [build_leaf, hstore]
  exact coerce_displayed_roundtrip yaml (path ++ [k]) k ov hnd hgood

theorem build_roundtrip_entries (yaml : YamlLib) (store : String → Option RawVal) :
    ∀ (es : Entries) (path : List String),
    (∀ id rv, (id, rv) ∈ render_children yaml path es → store id = some rv) →
    goodEntries yaml es = true →
    (build_entries yaml store es path).1 = es
  | Entries.nil, _, _, _ => rfl
  | Entries.cons k ov rest, path, hs, hg => by
    have hgparts : goodSubtree yaml k ov = true ∧ goodEntries yaml rest = true := by
      exact Bool.and_eq_true_iff.mp hg
    have hsrest : ∀ id rv, (id, rv) ∈ render_children yaml path rest →
        store id = some rv := by
      intro id rv hm
      exact hs id rv (by
        simp only [render_children, List.mem_append]
        exact Or.inr hm)
    have ihrest := build_roundtrip_entries yaml store rest path hsrest hgparts.2
    by_cases hod : ov.isDictV = true
    · obtain ⟨es2, rfl⟩ := exists_dict_of_isDict hod
      have hschild : ∀ id rv, (id, rv) ∈ render_children yaml (path ++ [k]) es2 →
          store id = some rv := by
        intro id rv hm
        exact hs id rv (by
          simp only [render_children, render_setting, List.mem_append]
          exact Or.inl hm)
      have hgood2 : goodEntries yaml es2 = true := by exact hgparts.1
      have ih := build_roundtrip_entries yaml store es2 (path ++ [k]) hschild hgood2
      rw [build_entries_cons_dict]
      simp [ih, ihrest]
    · have hod2 : ov.isDictV = false := by simpa using hod
      have hstore : store (joinPath (path ++ [k])) =
          some (displayed_value yaml k ov) := by
        have hm : (joinPath (path ++ [k]),
            displayed_value yaml ((path ++ [k]).getLastD "") ov) ∈
            render_children yaml path (Entries.cons k ov rest) := by
          have hone : render_setting yaml (path ++ [k]) ov =
              [(joinPath (path ++ [k]),
                displayed_value yaml ((path ++ [k]).getLastD "") ov)] := by
            cases ov <;> first
              | rfl
              | simp [Value.isDictV] at hod2
          simp only [render_children, List.mem_append, hone]
          exact Or.inl (by simp)
        have := hs _ _ hm
        rwa [getLastD_append_single path k ""] at this
      have hgood2 : goodVal yaml k ov = true := by
        have h2 := hgparts.1
        cases ov <;> first
          | exact h2
          | simp [Value.isDictV] at hod2
      rw [build_entries_cons_leaf yaml store k ov rest path hod2]
      simp [build_roundtrip_leaf yaml store path k ov hod2 hstore hgood2, ihrest]

theorem lookupA_mem : ∀ {l : List (String × RawVal)},
    nodupB (l.map Prod.fst) = true →
    ∀ {id : String} {rv : RawVal}, (id, rv) ∈ l → lookupA id l = some rv
  | [], _, _, _, h => absurd h (by simp)
  | (k, rv2) :: rest, hnd, id, rv, h => by
    have hnds : (rest.map Prod.fst).contains k = false ∧
        nodupB (rest.map Prod.fst) = true := by
      simpa [nodupB] using hnd
    by_cases hk : id = k
    · subst hk
      rcases List.mem_cons.mp h with he | hmem
      · have : rv = rv2 := by
          have := congrArg Prod.snd he
          simpa using this
        simp [lookupA, this]
      · exfalso
        have hin : id ∈ rest.map Prod.fst := List.mem_map.mpr ⟨(id, rv), hmem, rfl⟩
        have : (rest.map Prod.fst).contains id = true := containsB_of_mem hin
        rw [this] at hnds
        exact absurd hnds.1 (by simp)
    · rcases List.mem_cons.mp h with he | hmem
      · exact absurd (by simpa using congrArg Prod.fst he) hk
      · simp only [lookupA, if_neg hk]
        exact lookupA_mem hnds.2 hmem

/-- The tree `{"group_id": ""}`: its rendered current value is the empty
string, which the rebuild's `group_id` rule turns into null. -/
def emptyGidTree : Value := vDict (Entries.ofList [("group_id", vStr "")])

/-- C2 counterexample: round-trip stability fails as stated.  For
`{"group_id": ""}`, populating the edit store with exactly the unmodified
currentValues that rendering displays (the empty string) and rebuilding
yields `{"group_id": null}`, which is not deep-equal to the original tree. -/
theorem c2_counterexample :
    (build_updated_settings trivYaml
      (fun id => lookupA id (render_setting trivYaml [] emptyGidTree))
      emptyGidTree []).1 = vDict (Entries.ofList [("group_id", vNull)]) ∧
    (build_updated_settings trivYaml
      (fun id => lookupA id (render_setting trivYaml [] emptyGidTree))
      emptyGidTree []).1 ≠ emptyGidTree := by
  refine ⟨by decide, by decide⟩

/-- C2 amended: round-trip stability holds for every settings tree whose
rendered identifiers are pairwise distinct and whose leaves display
losslessly (`goodEntries`): rebuilding from an edit store populated with
exactly the unmodified currentValues that rendering the tree displays
yields a tree deep-equal to the original.  The lossless conditions exclude
exactly the leaves whose widgets normalise their value on display or on
rebuild: out-of-option `mode`/`log_level` values, `group_id` strings that
are empty or untrimmed, textarea list entries that are empty, untrimmed or
contain line breaks, negative or non-int `serial_numbers` entries, and
`session_types` lists the YAML library does not round-trip. -/
theorem c2_roundtrip_stability (yaml : YamlLib) (es : Entries)
    (hnodup : nodupB ((render_setting yaml [] (vDict es)).map Prod.fst) = true)
    (hgood : goodEntries yaml es = true) :
    (build_updated_settings yaml
      (fun id => lookupA id (render_setting yaml [] (vDict es)))
      (vDict es) []).1 = vDict es := by
  rw [build_top]
  have h := build_roundtrip_entries yaml
    (fun id => lookupA id (render_setting yaml [] (vDict es))) es []
    (fun id rv hm => lookupA_mem hnodup (by exact hm)) hgood
  rw [h]

/-- The YAML library of the C2 witness: it dumps the witness list to `"D"`
and parses `"D"` back to it. -/
def rtYaml : YamlLib :=
  { dump := fun _ => "D",
    load := fun s => if s = "D"
      then some (vListV (ValList.ofList [vDict Entries.nil])) else none }

/-- A settings tree exercising every lossless leaf kind: numbers, toggles,
enums, `group_id`, plain text, `serial_numbers`, a textarea list, a
`session_types` list, a read-only list and a null. -/
def rtTree : Entries := Entries.ofList
  [("global", vDict (Entries.ofList
    [("threads", vInt 2), ("mode", vStr "prod"), ("enabled", vBool true),
     ("rate", vFloat (1/2)), ("log_level", vStr "info"), ("group_id", vStr "abc"),
     ("name", vStr "x"),
     ("serial_numbers", vListV (ValList.ofList [vInt 1, vInt 2])),
     ("ad_identifiers", vListV (ValList.ofList [vStr "a", vStr "b"])),
     ("session_types", vListV (ValList.ofList [vDict Entries.nil])),
     ("other_list", vListV (ValList.ofList [vNull])),
     ("maybe", vNull)]))]

/-- Witness for the amended C2 theorem: the full-featured tree `rtTree`
round-trips exactly through one render/rebuild cycle. -/
theorem c2_roundtrip_stability_witness :
    nodupB ((render_setting rtYaml [] (vDict rtTree)).map Prod.fst) = true ∧
    goodEntries rtYaml rtTree = true ∧
    (build_updated_settings rtYaml
      (fun id => lookupA id (render_setting rtYaml [] (vDict rtTree)))
      (vDict rtTree) []).1 = vDict rtTree :=
  ⟨by decide, by decide,
   c2_roundtrip_stability rtYaml rtTree (by decide) (by decide)⟩

/-- A concrete underscore-free tree `{"a": {"b": 1}, "c": 2}`. -/
def injWitnessTree : Value := vDict (Entries.ofList
  [("a", vDict (Entries.ofList [("b", vInt 1)])), ("c", vInt 2)])

/-- Witness for the amended C1 theorem at a concrete tree: in
`{"a": {"b": 1}, "c": 2}` the distinct paths `["a", "b"]` and `["c"]` get
distinct identifiers. -/
theorem c1_keyPath_injectivity_witness :
    allKeysB noUnderscore injWitnessTree = true ∧
    ["a", "b"] ∈ reachablePaths injWitnessTree ∧
    ["c"] ∈ reachablePaths injWitnessTree ∧
    joinPath ["a", "b"] ≠ joinPath ["c"] :=
  ⟨by decide, by decide, by decide,
   c1_keyPath_injectivity injWitnessTree ["a", "b"] ["c"]
     (by decide) (by decide) (by decide) (by decide)⟩

end SettingsEditor
